import Mathlib

/-!
Verification of the xauusd-strategy backtesting engine.

This file shallowly embeds the two backtest simulators of the repository in
Lean 4 and proves (or refutes) the frozen specification claims about them:

* src/final/backtesting_data_prep.py — the RSI/SMA crossover simulator
  (pivot-point support/resistance, signal generation with confirmation,
  per-signal stop/target derivation and exit scan).
* src/silver_bot/backtest_silver_strategy.py — the averaging-down silver
  simulator (paired long/short entries, 90-day time-limit rule, equity and
  drawdown bookkeeping, end-of-data handling).

Prices and money amounts are modelled as rationals, which represent the
decimal literals of the source exactly.  Indicator columns that can be NaN
in pandas are modelled as Option values.  Timestamps are modelled as a
calendar-day number plus an intra-day second count, which is all the source
inspects (day-change detection, day differences, time-of-day windows).
The file is organised as definitions first, then theorems.
-/

set_option maxRecDepth 4000

namespace XauUsd

/-- Sorted de-duplicated list of rationals: the model of the Python idiom
sorted(list(set(xs))). -/
def sortedDedup (xs : List ℚ) : List ℚ :=
  (xs.dedup).insertionSort (· ≤ ·)

/-- Pivot-point support/resistance computation, from get_pivot_points
(src/final/backtesting_data_prep.py lines 288-295).  Given the last
coarser-timeframe bar's high, low and close, it forms the pivot
p = (h + l + c) / 3, the three derived support levels and the three
derived resistance levels, and returns the two lists produced by
sorted(list(set(s + [p]))) and sorted(list(set(r + [p]))): in particular
the pivot itself is a member of both returned lists.  The pd.isna filter
of the source is vacuous here because rationals have no NaN. -/
def getPivotPoints (h l c : ℚ) : List ℚ × List ℚ :=
  let p := (h + l + c) / 3
  let s := [2 * p - h, p - (h - l), l - 2 * (h - p)]
  let r := [2 * p - l, p + (h - l), h + 2 * (p - l)]
  (sortedDedup (s ++ [p]), sortedDedup (r ++ [p]))

/-- Trade direction. -/
inductive Dir
  | long
  | short
deriving DecidableEq, Repr

/-- Trend classification returned by get_trend. -/
inductive Trend
  | up
  | down
  | sideways
deriving DecidableEq, Repr

/-- A 5-minute bar of the indicator-augmented frame consumed by the signal
generator and the trade simulator of src/final/backtesting_data_prep.py.
The datetime column is modelled as a Nat timestamp; rsi, sma_rsi and atr
may be NaN in pandas and are therefore Options. -/
structure Bar5 where
  ts : Nat
  opn : ℚ
  high : ℚ
  low : ℚ
  close : ℚ
  rsi : Option ℚ
  smaRsi : Option ℚ
  atr : Option ℚ
deriving DecidableEq, Repr

/-- A coarser-timeframe (15-minute or 4-hour) bar. -/
structure HTFBar where
  ts : Nat
  opn : ℚ
  high : ℚ
  low : ℚ
  close : ℚ
deriving DecidableEq, Repr

/-- Trend SMA period (TREND_SMA_PERIOD = 50). -/
def TREND_SMA_PERIOD : Nat := 50

/-- get_trend (src/final/backtesting_data_prep.py lines 277-286): sideways
when fewer than 50 bars are available, otherwise the last close is compared
with the 50-bar simple moving average taken at the last bar, i.e. the mean
of the last 50 closes.  Closes are never NaN in the model, so the dropna
steps of the source are identities. -/
def getTrend (df : List HTFBar) : Trend :=
  if df.length < TREND_SMA_PERIOD then Trend.sideways
  else
    match df.getLast? with
    | none => Trend.sideways
    | some lastBar =>
      let ls := (((df.map (fun b => b.close)).drop (df.length - TREND_SMA_PERIOD)).sum)
        / (TREND_SMA_PERIOD : ℚ)
      if lastBar.close > ls then Trend.up
      else if lastBar.close < ls then Trend.down
      else Trend.sideways

/-- Support/resistance lists of a coarser-timeframe frame: empty lists when
the frame is empty, otherwise the pivot points of the last bar. -/
def pivotPointsOfFrame (df : List HTFBar) : List ℚ × List ℚ :=
  match df.getLast? with
  | none => ([], [])
  | some b => getPivotPoints b.high b.low b.close

/-- is_valid_trading_time: the time of day of the timestamp (in seconds,
ts % 86400) must fall inside one of the configured closed windows. -/
def isValidTradingTime (ts : Nat) (windows : List (Nat × Nat)) : Bool :=
  windows.any (fun w => decide (w.1 ≤ ts % 86400) && decide (ts % 86400 ≤ w.2))

/-- A generated trading signal.  The fields that the simulator consumes are
kept; the purely diagnostic logging fields of the source dict (raw candle
copies, JSON blobs) are omitted.  The support/resistance snapshots are
carried as lists directly; the source serialises them to JSON and parses
them back unchanged in execute_backtest. -/
structure Signal where
  entryTs : Nat
  entryPrice : ℚ
  direction : Dir
  s15 : List ℚ
  r15 : List ℚ
  s4h : List ℚ
  r4h : List ℚ
  crossIdx : Nat
  crossTs : Nat
deriving DecidableEq, Repr

/-- SR_NEARNESS_FACTOR_ATR_MULTIPLE = 0.5. -/
def SR_NEARNESS_FACTOR : ℚ := 1 / 2

/-- Body of the signal-generation loop of generate_trading_signals
(src/final/backtesting_data_prep.py lines 319-362) at index i: indicator
availability check, RSI/SMA crossing detection, RSI threshold filter,
trading-hours filter, next-bar confirmation (bullish body confirms a long
cross, bearish body a short cross; entry price is the confirmation bar's
close), 15-minute downtrend regime filter, and the ATR-based
support/resistance nearness exclusion. -/
def signalAt (df5 : List Bar5) (htf15 htf4h : List HTFBar)
    (windows : List (Nat × Nat)) (rsiLongThreshold rsiShortThreshold : ℚ)
    (i : Nat) : Option Signal :=
  match df5.get? i, df5.get? (i - 1), df5.get? (i + 1) with
  | some curr, some prev, some confirmCandle =>
    match curr.rsi, curr.smaRsi, prev.rsi, prev.smaRsi, curr.atr with
    | some rsiCurr, some smaCurr, some rsiPrev, some smaPrev, some atrVal =>
      let crossTs := curr.ts
      let trend15 := getTrend (htf15.filter (fun b => b.ts ≤ crossTs))
      let isLongCross := decide (smaCurr < rsiCurr) && decide (rsiPrev ≤ smaPrev)
      let isShortCross := decide (rsiCurr < smaCurr) && decide (smaPrev ≤ rsiPrev)
      let passesRsiFilt :=
        (isLongCross && decide (rsiCurr < rsiLongThreshold)) ||
        (isShortCross && decide (rsiShortThreshold < rsiCurr))
      if passesRsiFilt && isValidTradingTime crossTs windows then
        let dirOpt : Option Dir :=
          if isLongCross && decide (confirmCandle.opn < confirmCandle.close) then
            some Dir.long
          else if isShortCross && decide (confirmCandle.close < confirmCandle.opn) then
            some Dir.short
          else none
        match dirOpt with
        | none => none
        | some direction =>
          if trend15 = Trend.down then
            let sr15 := pivotPointsOfFrame (htf15.filter (fun b => b.ts < crossTs))
            let sr4h := pivotPointsOfFrame (htf4h.filter (fun b => b.ts < crossTs))
            let entryPx := confirmCandle.close
            let nearThresh :=
              if atrVal = 0 then entryPx * (1 / 1000) else atrVal * SR_NEARNESS_FACTOR
            let blocked :=
              match direction with
              | Dir.long =>
                (sr4h.2 ++ sr15.2).any
                  (fun rl => decide (entryPx < rl) && decide (rl - entryPx < nearThresh))
              | Dir.short =>
                (sr4h.1 ++ sr15.1).any
                  (fun sl => decide (sl < entryPx) && decide (entryPx - sl < nearThresh))
            if blocked then none
            else some
              { entryTs := confirmCandle.ts
                entryPrice := entryPx
                direction := direction
                s15 := sr15.1
                r15 := sr15.2
                s4h := sr4h.1
                r4h := sr4h.2
                crossIdx := i
                crossTs := crossTs }
          else none
      else none
    | _, _, _, _, _ => none
  | _, _, _ => none

/-- Index of the first bar whose sma_rsi is defined (pandas
first_valid_index on the sma_rsi column). -/
def firstValidIdx (df5 : List Bar5) : Option Nat :=
  df5.findIdx? (fun b => b.smaRsi.isSome)

/-- generate_trading_signals: iterate i over
range(max(1, valid_idx), len(df_5m) - 1) and collect the emitted signals. -/
def generateTradingSignals (df5 : List Bar5) (htf15 htf4h : List HTFBar)
    (windows : List (Nat × Nat)) (rsiLongThreshold rsiShortThreshold : ℚ) :
    List Signal :=
  match firstValidIdx df5 with
  | none => []
  | some v =>
    (List.range df5.length).filterMap (fun i =>
      if max 1 v ≤ i ∧ i + 1 < df5.length then
        signalAt df5 htf15 htf4h windows rsiLongThreshold rsiShortThreshold i
      else none)

/-- Combined support levels of a signal:
sorted(list(set(s_15m + s_4h))). -/
def allSupports (sig : Signal) : List ℚ :=
  sortedDedup (sig.s15 ++ sig.s4h)

/-- Combined resistance levels of a signal:
sorted(list(set(r_15m + r_4h))). -/
def allResistances (sig : Signal) : List ℚ :=
  sortedDedup (sig.r15 ++ sig.r4h)

/-- Stop-loss candidate of execute_backtest (lines 395-415): for a long the
highest combined support strictly below entry, for a short the lowest
combined resistance strictly above entry; none when no such level exists. -/
def slCandidate (sig : Signal) : Option ℚ :=
  match sig.direction with
  | Dir.long => ((allSupports sig).filter (fun s => decide (s < sig.entryPrice))).max?
  | Dir.short => ((allResistances sig).filter (fun r => decide (sig.entryPrice < r))).min?

/-- Take-profit candidate of execute_backtest (lines 395-415): for a long
the lowest combined resistance strictly above entry, for a short the
highest combined support strictly below entry. -/
def tpCandidate (sig : Signal) : Option ℚ :=
  match sig.direction with
  | Dir.long => ((allResistances sig).filter (fun r => decide (sig.entryPrice < r))).min?
  | Dir.short => ((allSupports sig).filter (fun s => decide (s < sig.entryPrice))).max?

/-- MIN_SL_DISTANCE_PIPS = 10. -/
def MIN_SL_DISTANCE_PIPS : ℚ := 10

/-- Entry validation of execute_backtest (lines 417-430): skip when either
the stop or the target level cannot be derived, when the stop distance is
below MIN_SL_DISTANCE_PIPS * pip_value, or when risk is zero or reward is
smaller than risk; otherwise return the stop and target prices. -/
def tradeSetup (pipVal : ℚ) (sig : Signal) : Option (ℚ × ℚ) :=
  match slCandidate sig, tpCandidate sig with
  | some sl, some tp =>
    if |sig.entryPrice - sl| < MIN_SL_DISTANCE_PIPS * pipVal then none
    else
      let risk := |sig.entryPrice - sl|
      let reward := |tp - sig.entryPrice|
      if risk = 0 ∨ reward < risk then none
      else some (sl, tp)
  | _, _ => none

/-- Exit reasons of the crossover simulator; the source uses the strings
"SL Hit (S/R)", "TP Hit (S/R)" and "RSI Crossover Stop". -/
inductive ExitReason
  | slHit
  | tpHit
  | rsiCrossoverStop
deriving DecidableEq, Repr

/-- Result of the per-trade exit scan: the candle index, exit price, exit
timestamp and reason. -/
structure ExitInfo where
  idx : Nat
  px : ℚ
  ts : Nat
  reason : ExitReason
deriving DecidableEq, Repr

/-- Exit decision on one candle (execute_backtest lines 438-457): the
stop-loss extreme is checked first, then the take-profit extreme, and only
if neither fires the RSI crossover stop (which needs all four RSI/SMA
values of this and the previous candle defined, and exits at the close). -/
def candleExit (dir : Dir) (sl tp : ℚ) (candle prevCandle : Bar5) (k : Nat) :
    Option ExitInfo :=
  match dir with
  | Dir.long =>
    if candle.low ≤ sl then some ⟨k, sl, candle.ts, ExitReason.slHit⟩
    else if tp ≤ candle.high then some ⟨k, tp, candle.ts, ExitReason.tpHit⟩
    else
      match candle.rsi, candle.smaRsi, prevCandle.rsi, prevCandle.smaRsi with
      | some r, some s, some rp, some sp =>
        if r < s ∧ sp ≤ rp then some ⟨k, candle.close, candle.ts, ExitReason.rsiCrossoverStop⟩
        else none
      | _, _, _, _ => none
  | Dir.short =>
    if sl ≤ candle.high then some ⟨k, sl, candle.ts, ExitReason.slHit⟩
    else if candle.low ≤ tp then some ⟨k, tp, candle.ts, ExitReason.tpHit⟩
    else
      match candle.rsi, candle.smaRsi, prevCandle.rsi, prevCandle.smaRsi with
      | some r, some s, some rp, some sp =>
        if s < r ∧ rp ≤ sp then some ⟨k, candle.close, candle.ts, ExitReason.rsiCrossoverStop⟩
        else none
      | _, _, _, _ => none

/-- Forward scan for the first exit, starting at candle index k (the source
iterates k from entry_idx + 1 to the end of the frame); fuel bounds the
recursion and is instantiated with the frame length. -/
def exitScan (df5 : List Bar5) (dir : Dir) (sl tp : ℚ) :
    Nat → Nat → Option ExitInfo
  | _, 0 => none
  | k, fuel + 1 =>
    match df5.get? k, df5.get? (k - 1) with
    | some candle, some prevCandle =>
      match candleExit dir sl tp candle prevCandle k with
      | some e => some e
      | none => exitScan df5 dir sl tp (k + 1) fuel
    | _, _ => none

/-- A completed trade of the crossover simulator. -/
structure TradeF where
  direction : Dir
  entryTs : Nat
  entryPrice : ℚ
  exitTs : Nat
  exitPrice : ℚ
  exitReason : ExitReason
  pnl : ℚ
  balanceAfter : ℚ
  durationBars : Nat
deriving DecidableEq, Repr

/-- Per-signal simulation step of execute_backtest (lines 375-506): derive
and validate stop/target, locate the entry candle by timestamp, scan the
following candles for the first exit, and on a truthy exit price append the
trade and add its pnl to the balance.  The source's guard is the Python
truthiness test if exit_px, so an exit at price exactly 0 records
nothing. -/
def executeStep (df5 : List Bar5) (units pipVal : ℚ)
    (acc : List TradeF × ℚ) (sig : Signal) : List TradeF × ℚ :=
  match tradeSetup pipVal sig with
  | none => acc
  | some (sl, tp) =>
    match df5.findIdx? (fun b => b.ts = sig.entryTs) with
    | none => acc
    | some entryIdx =>
      match exitScan df5 sig.direction sl tp (entryIdx + 1) df5.length with
      | none => acc
      | some e =>
        if e.px = 0 then acc
        else
          let pnl :=
            (match sig.direction with
             | Dir.long => e.px - sig.entryPrice
             | Dir.short => sig.entryPrice - e.px) * units
          (acc.1 ++ [{ direction := sig.direction
                       entryTs := sig.entryTs
                       entryPrice := sig.entryPrice
                       exitTs := e.ts
                       exitPrice := e.px
                       exitReason := e.reason
                       pnl := pnl
                       balanceAfter := acc.2 + pnl
                       durationBars := e.idx - entryIdx }],
           acc.2 + pnl)

/-- execute_backtest: fold the per-signal step over the signal list,
starting from an empty ledger and the initial balance. -/
def executeBacktest (df5 : List Bar5) (signals : List Signal)
    (initialBalance units pipVal : ℚ) : List TradeF × ℚ :=
  signals.foldl (executeStep df5 units pipVal) ([], initialBalance)

/-- A signal opens a position in execute_backtest exactly when it survives
the stop/target validation (no continue at lines 418-430) and its entry
timestamp is found in the 5-minute frame (line 435), i.e. when control
reaches the per-candle monitoring loop. -/
def opensPosition (df5 : List Bar5) (pipVal : ℚ) (sig : Signal) : Bool :=
  (tradeSetup pipVal sig).isSome &&
    (df5.findIdx? (fun b => b.ts = sig.entryTs)).isSome

/-- Number of positions opened during a run of execute_backtest. -/
def acceptedPositions (df5 : List Bar5) (pipVal : ℚ) (signals : List Signal) : Nat :=
  signals.countP (opensPosition df5 pipVal)

/-! ### The silver-bot simulator (src/silver_bot/backtest_silver_strategy.py) -/

/-- A timestamp of the silver frame: calendar-day number and an intra-day
ordinal.  The source only compares date strings (day change), subtracts
dates (days held) and orders full timestamps (most recent entry). -/
structure Ts where
  day : Nat
  tod : Nat
deriving DecidableEq, Repr

/-- Strict timestamp order, day-major. -/
def Ts.ltB (a b : Ts) : Bool :=
  decide (a.day < b.day) || (decide (a.day = b.day) && decide (a.tod < b.tod))

/-- A 15-minute silver candle. -/
structure CandleS where
  ts : Ts
  opn : ℚ
  high : ℚ
  low : ℚ
  close : ℚ
deriving DecidableEq, Repr

/-- Trade types of the silver simulator: "LONG" and "SHORT_ORIG" in the
source (every position dict carries a trade_type, so the 'SHORT' default of
position.get is never used). -/
inductive TradeType
  | tLong
  | tShortOrig
deriving DecidableEq, Repr

/-- Trade statuses of the silver simulator: "CLOSED_TP",
"CLOSED_TP_SAME_CANDLE", "CLOSED_90_DAY_RULE" and "STILL_OPEN". -/
inductive Status
  | closedTP
  | closedTPSameCandle
  | closed90DayRule
  | stillOpen
deriving DecidableEq, Repr

/-- Financial constants of the silver simulator, all INR based. -/
def LOT_SIZE_ACTUAL : ℚ := 1 / 100

/-- FEE_INR_PER_TRADE = 88.74, charged per completed round trip. -/
def FEE_INR_PER_TRADE : ℚ := 8874 / 100

/-- SWAP_LONG_INR_PER_NIGHT = -19.97. -/
def SWAP_LONG_INR_PER_NIGHT : ℚ := -1997 / 100

/-- SWAP_SHORT_INR_PER_NIGHT = 0.0. -/
def SWAP_SHORT_INR_PER_NIGHT : ℚ := 0

/-- PNL_INR_PER_PIP = 44.0. -/
def PNL_INR_PER_PIP : ℚ := 44

/-- POINT_VALUE = 0.01. -/
def POINT_VALUE : ℚ := 1 / 100

/-- STARTING_BALANCE_INR = 100000.0. -/
def STARTING_BALANCE_INR : ℚ := 100000

/-- ENTRY_THRESHOLD_PERCENT = 0.005. -/
def ENTRY_THRESHOLD_PERCENT : ℚ := 5 / 1000

/-- LONG_ENTRY_DOLLAR_STEP = 0.5. -/
def LONG_ENTRY_DOLLAR_STEP : ℚ := 1 / 2

/-- TAKE_PROFIT_PRICE_OFFSET = 0.5. -/
def TAKE_PROFIT_PRICE_OFFSET : ℚ := 1 / 2

/-- SHORT_LOT_SIZE_FRACTION_OF_LONG = 1.0. -/
def SHORT_LOT_SIZE_FRACTION_OF_LONG : ℚ := 1

/-- SHORT_TAKE_PROFIT_PRICE_OFFSET = 1.0. -/
def SHORT_TAKE_PROFIT_PRICE_OFFSET : ℚ := 1

/-- SHORT_ENTRY_PRICE_OFFSET_FROM_LONG = 2.0. -/
def SHORT_ENTRY_PRICE_OFFSET_FROM_LONG : ℚ := 2

/-- The concurrency cap: the literal 30 of line 338. -/
def MAX_CONCURRENT_TRADES : Nat := 30

/-- An open position of the silver simulator.  String position ids of the
source are replaced by a run-unique Nat drawn from the opened counter;
the ids are only ever added to and removed from the two bookkeeping
active-id sets, which no control decision reads, so those sets are not
modelled.  The informational margin field (a constant) is omitted. -/
structure PosS where
  id : Nat
  tradeType : TradeType
  entryTime : Ts
  entryPrice : ℚ
  tpPrice : ℚ
  size : ℚ
  dailyOpenRef : ℚ
  maeInr : ℚ
deriving DecidableEq, Repr

/-- A ledger record of the silver simulator.  exitTime = none models the
source's "STILL_OPEN" string standing in the exit_time column; the constant
informational margin_inr column is omitted. -/
structure TradeS where
  tradeType : TradeType
  entryTime : Ts
  entryPrice : ℚ
  exitTime : Option Ts
  exitPrice : ℚ
  grossPnlInr : ℚ
  swapChargesInr : ℚ
  feesInr : ℚ
  maeInr : ℚ
  netPnlInr : ℚ
  size : ℚ
  status : Status
deriving DecidableEq, Repr

/-- The mutable state of run_backtest.  The fields opened (number of
positions appended so far) and minEquity (least running equity observed
after any equity update) are ghost instrumentation used only by theorems;
no definition branches on them. -/
structure StateS where
  trades : List TradeS
  openLongPositions : List PosS
  openShortPositions : List PosS
  equity : ℚ
  peakEquity : ℚ
  maxDrawdown : ℚ
  maxConcurrentMae : ℚ
  dailyOpenPrice : Option ℚ
  currentDay : Option Nat
  opened : Nat
  minEquity : ℚ
deriving DecidableEq, Repr

/-- Days held, as computed by the source: difference of calendar days,
clamped at zero (the Nat subtraction performs the source's safety clamp
days_held = max(days_held, 0)). -/
def daysHeld (entry current : Ts) : Nat :=
  current.day - entry.day

/-- Gross P&L in INR of a long at a given price:
(price - entry) / POINT_VALUE * PNL_INR_PER_PIP. -/
def grossLongAt (price entry : ℚ) : ℚ :=
  (price - entry) / POINT_VALUE * PNL_INR_PER_PIP

/-- Gross P&L in INR of a short at a given price. -/
def grossShortAt (price entry : ℚ) : ℚ :=
  (entry - price) / POINT_VALUE * PNL_INR_PER_PIP

/-- Equity bookkeeping performed after every trade close (lines 137-140 and
the analogous blocks): add the net P&L to equity, compute the drawdown
(peak - equity) / peak when the peak is positive and equity is below it
(zero otherwise), fold it into the maximum drawdown, then raise the peak.
Also records the ghost running minimum of equity. -/
def closeUpdate (st : StateS) (net : ℚ) : StateS :=
  let equity' := st.equity + net
  let dd :=
    if 0 < st.peakEquity ∧ equity' < st.peakEquity then
      (st.peakEquity - equity') / st.peakEquity
    else 0
  { st with
    equity := equity'
    maxDrawdown := max st.maxDrawdown dd
    peakEquity := max st.peakEquity equity'
    minEquity := min st.minEquity equity' }

/-- Append a closed trade record and run the equity bookkeeping on its net
P&L. -/
def closeTrade (st : StateS) (t : TradeS) : StateS :=
  closeUpdate { st with trades := st.trades ++ [t] } t.netPnlInr

/-- Floating (mark-to-market) net P&L of a long for the 90-day check:
gross P&L at the candle close plus swap charges, before fees. -/
def floatLong (c : CandleS) (p : PosS) : ℚ :=
  grossLongAt c.close p.entryPrice +
    (daysHeld p.entryTime c.ts : ℚ) * SWAP_LONG_INR_PER_NIGHT

/-- Floating net P&L of a short for the 90-day check. -/
def floatShort (c : CandleS) (p : PosS) : ℚ :=
  grossShortAt c.close p.entryPrice +
    (daysHeld p.entryTime c.ts : ℚ) * SWAP_SHORT_INR_PER_NIGHT

/-- The 90-day closure condition for a long: held more than 90 days and
floating net P&L above -5000. -/
def ninetyCloseLongB (c : CandleS) (p : PosS) : Bool :=
  decide (90 < daysHeld p.entryTime c.ts) && decide (-5000 < floatLong c p)

/-- The 90-day closure condition for a short. -/
def ninetyCloseShortB (c : CandleS) (p : PosS) : Bool :=
  decide (90 < daysHeld p.entryTime c.ts) && decide (-5000 < floatShort c p)

/-- The record appended when a long is closed by the 90-day rule: exit at
the candle close, full fee charged. -/
def mk90LongTrade (c : CandleS) (p : PosS) : TradeS :=
  { tradeType := TradeType.tLong
    entryTime := p.entryTime
    entryPrice := p.entryPrice
    exitTime := some c.ts
    exitPrice := c.close
    grossPnlInr := grossLongAt c.close p.entryPrice
    swapChargesInr := (daysHeld p.entryTime c.ts : ℚ) * SWAP_LONG_INR_PER_NIGHT
    feesInr := FEE_INR_PER_TRADE
    maeInr := p.maeInr
    netPnlInr := floatLong c p - FEE_INR_PER_TRADE
    size := p.size
    status := Status.closed90DayRule }

/-- The record appended when a short is closed by the 90-day rule. -/
def mk90ShortTrade (c : CandleS) (p : PosS) : TradeS :=
  { tradeType := p.tradeType
    entryTime := p.entryTime
    entryPrice := p.entryPrice
    exitTime := some c.ts
    exitPrice := c.close
    grossPnlInr := grossShortAt c.close p.entryPrice
    swapChargesInr := (daysHeld p.entryTime c.ts : ℚ) * SWAP_SHORT_INR_PER_NIGHT
    feesInr := FEE_INR_PER_TRADE
    maeInr := p.maeInr
    netPnlInr := floatShort c p - FEE_INR_PER_TRADE
    size := p.size
    status := Status.closed90DayRule }

/-- Common shape of the four in-place exit passes of the candle loop: walk
the snapshot of an open-position list in order; close each position meeting
the exit condition (append its record, run the equity bookkeeping) and keep
the others, possibly updated, in order in the rebuilt list.  This models
the source's iterate-over-a-copy-and-remove pattern. -/
def foldCloseLongs (cond : PosS → Bool) (mk : PosS → TradeS) (upd : PosS → PosS)
    (l : List PosS) (acc : StateS) : StateS :=
  l.foldl
    (fun a p =>
      if cond p then closeTrade a (mk p)
      else { a with openLongPositions := a.openLongPositions ++ [upd p] }) acc

/-- foldCloseLongs for the short-position list. -/
def foldCloseShorts (cond : PosS → Bool) (mk : PosS → TradeS) (upd : PosS → PosS)
    (l : List PosS) (acc : StateS) : StateS :=
  l.foldl
    (fun a p =>
      if cond p then closeTrade a (mk p)
      else { a with openShortPositions := a.openShortPositions ++ [upd p] }) acc

/-- 90-day rule pass over the open long positions (lines 96-141): each
position held more than 90 days whose floating net P&L is above -5000 is
closed at the candle close; the others are kept in order. -/
def ninetyDayLongs (c : CandleS) (st : StateS) : StateS :=
  foldCloseLongs (ninetyCloseLongB c) (mk90LongTrade c) (fun p => p)
    st.openLongPositions { st with openLongPositions := [] }

/-- 90-day rule pass over the open short positions (lines 143-187). -/
def ninetyDayShorts (c : CandleS) (st : StateS) : StateS :=
  foldCloseShorts (ninetyCloseShortB c) (mk90ShortTrade c) (fun p => p)
    st.openShortPositions { st with openShortPositions := [] }

/-- Adverse-excursion update of a long on a candle (lines 194-197). -/
def maeUpdLong (c : CandleS) (p : PosS) : PosS :=
  if c.low < p.entryPrice then
    { p with maeInr := max p.maeInr ((p.entryPrice - c.low) / POINT_VALUE * PNL_INR_PER_PIP) }
  else p

/-- Adverse-excursion update of a short on a candle (lines 244-247). -/
def maeUpdShort (c : CandleS) (p : PosS) : PosS :=
  if p.entryPrice < c.high then
    { p with maeInr := max p.maeInr ((c.high - p.entryPrice) / POINT_VALUE * PNL_INR_PER_PIP) }
  else p

/-- Take-profit condition of a long: the candle high reaches
entry + TAKE_PROFIT_PRICE_OFFSET (the effective TP price, line 199). -/
def tpHitLongB (c : CandleS) (p : PosS) : Bool :=
  decide (p.entryPrice + TAKE_PROFIT_PRICE_OFFSET ≤ c.high)

/-- Take-profit condition of a short: the candle low reaches the stored
tp_price (line 253). -/
def tpHitShortB (c : CandleS) (p : PosS) : Bool :=
  decide (c.low ≤ p.tpPrice)

/-- The record appended when a long hits its take profit (lines 218-229). -/
def mkTpLongTrade (c : CandleS) (p : PosS) : TradeS :=
  let exitPx := p.entryPrice + TAKE_PROFIT_PRICE_OFFSET
  let swap := (daysHeld p.entryTime c.ts : ℚ) * SWAP_LONG_INR_PER_NIGHT
  { tradeType := TradeType.tLong
    entryTime := p.entryTime
    entryPrice := p.entryPrice
    exitTime := some c.ts
    exitPrice := exitPx
    grossPnlInr := grossLongAt exitPx p.entryPrice
    swapChargesInr := swap
    feesInr := FEE_INR_PER_TRADE
    maeInr := (maeUpdLong c p).maeInr
    netPnlInr := grossLongAt exitPx p.entryPrice + swap - FEE_INR_PER_TRADE
    size := p.size
    status := Status.closedTP }

/-- The record appended when a short hits its take profit (lines 272-284). -/
def mkTpShortTrade (c : CandleS) (p : PosS) : TradeS :=
  let swap := (daysHeld p.entryTime c.ts : ℚ) * SWAP_SHORT_INR_PER_NIGHT
  { tradeType := p.tradeType
    entryTime := p.entryTime
    entryPrice := p.entryPrice
    exitTime := some c.ts
    exitPrice := p.tpPrice
    grossPnlInr := grossShortAt p.tpPrice p.entryPrice
    swapChargesInr := swap
    feesInr := FEE_INR_PER_TRADE
    maeInr := (maeUpdShort c p).maeInr
    netPnlInr := grossShortAt p.tpPrice p.entryPrice + swap - FEE_INR_PER_TRADE
    size := p.size
    status := Status.closedTP }

/-- Manage-open-longs pass (lines 192-239): update each long's adverse
excursion, then close it at the effective TP when the candle high reaches
it (the record keeping the updated excursion, as the source mutates the
dict before the TP check), otherwise keep it (updated) in order. -/
def manageLongs (c : CandleS) (st : StateS) : StateS :=
  foldCloseLongs (tpHitLongB c) (mkTpLongTrade c) (maeUpdLong c)
    st.openLongPositions { st with openLongPositions := [] }

/-- Manage-open-shorts pass (lines 242-292). -/
def manageShorts (c : CandleS) (st : StateS) : StateS :=
  foldCloseShorts (tpHitShortB c) (mkTpShortTrade c) (maeUpdShort c)
    st.openShortPositions { st with openShortPositions := [] }

/-- Momentary total adverse excursion over all open positions on a candle
(lines 294-302). -/
def momentaryMae (c : CandleS) (st : StateS) : ℚ :=
  ((st.openLongPositions.map (fun p =>
      if c.low < p.entryPrice then
        max 0 ((p.entryPrice - c.low) / POINT_VALUE * PNL_INR_PER_PIP)
      else 0)).sum) +
  ((st.openShortPositions.map (fun p =>
      if p.entryPrice < c.high then
        max 0 ((c.high - p.entryPrice) / POINT_VALUE * PNL_INR_PER_PIP)
      else 0)).sum)

/-- Fold the momentary total adverse excursion into its running maximum
(line 303). -/
def concMaePhase (c : CandleS) (st : StateS) : StateS :=
  { st with maxConcurrentMae := max st.maxConcurrentMae (momentaryMae c st) }

/-- Target price of the next long entry (lines 305-335): for the first
entry against the current daily open, a 0.5 percent drop from the daily
open; afterwards, LONG_ENTRY_DOLLAR_STEP below the entry of the most
recent open long taken against the same daily open (ties broken towards
the earliest, like Python max). -/
def nextEntryTarget (dOpen : ℚ) (st : StateS) : ℚ :=
  match st.openLongPositions.filter (fun p => decide (p.dailyOpenRef = dOpen)) with
  | [] => dOpen * (1 - ENTRY_THRESHOLD_PERCENT)
  | p0 :: rest =>
    (rest.foldl (fun best q => if best.entryTime.ltB q.entryTime then q else best) p0).entryPrice
      - LONG_ENTRY_DOLLAR_STEP

/-- The long position opened on an entry trigger (lines 346-356). -/
def newLongPos (c : CandleS) (dOpen target : ℚ) (idNum : Nat) : PosS :=
  let mae0 : ℚ :=
    if c.low < target then max 0 ((target - c.low) / POINT_VALUE * PNL_INR_PER_PIP) else 0
  { id := idNum
    tradeType := TradeType.tLong
    entryTime := c.ts
    entryPrice := target
    tpPrice := target + TAKE_PROFIT_PRICE_OFFSET
    size := LOT_SIZE_ACTUAL
    dailyOpenRef := dOpen
    maeInr := mae0 }

/-- The paired original short opened together with every long (lines
362-374): entry offset above the long entry, with its own take profit. -/
def newShortPos (c : CandleS) (dOpen target : ℚ) (idNum : Nat) : PosS :=
  let entry := target + SHORT_ENTRY_PRICE_OFFSET_FROM_LONG
  let mae0 : ℚ :=
    if entry < c.high then max 0 ((c.high - entry) / POINT_VALUE * PNL_INR_PER_PIP) else 0
  { id := idNum
    tradeType := TradeType.tShortOrig
    entryTime := c.ts
    entryPrice := entry
    tpPrice := entry - SHORT_TAKE_PROFIT_PRICE_OFFSET
    size := LOT_SIZE_ACTUAL * SHORT_LOT_SIZE_FRACTION_OF_LONG
    dailyOpenRef := dOpen
    maeInr := mae0 }

/-- Entry step (lines 337-378): when the combined number of open positions
is below the cap of 30 and the candle low reaches the entry target, open a
long at the target and the paired original short; returns the new state and
the pair of freshly opened positions. -/
def entryOpen (c : CandleS) (dOpen : ℚ) (st : StateS) : StateS × Option (PosS × PosS) :=
  let target := nextEntryTarget dOpen st
  if st.openLongPositions.length + st.openShortPositions.length < MAX_CONCURRENT_TRADES
      ∧ c.low ≤ target then
    let lp := newLongPos c dOpen target st.opened
    let sp := newShortPos c dOpen target (st.opened + 1)
    ({ st with
        openLongPositions := st.openLongPositions ++ [lp]
        openShortPositions := st.openShortPositions ++ [sp]
        opened := st.opened + 2 }, some (lp, sp))
  else (st, none)

/-- Same-candle take-profit record for the fresh long (lines 384-414):
entry and exit on the same candle, no swap, full fee. -/
def mkSameCandleLongTrade (c : CandleS) (lp : PosS) : TradeS :=
  { tradeType := TradeType.tLong
    entryTime := c.ts
    entryPrice := lp.entryPrice
    exitTime := some c.ts
    exitPrice := lp.tpPrice
    grossPnlInr := grossLongAt lp.tpPrice lp.entryPrice
    swapChargesInr := 0
    feesInr := FEE_INR_PER_TRADE
    maeInr := lp.maeInr
    netPnlInr := grossLongAt lp.tpPrice lp.entryPrice - FEE_INR_PER_TRADE
    size := lp.size
    status := Status.closedTPSameCandle }

/-- Same-candle take-profit record for the fresh short (lines 416-449). -/
def mkSameCandleShortTrade (c : CandleS) (sp : PosS) : TradeS :=
  { tradeType := sp.tradeType
    entryTime := c.ts
    entryPrice := sp.entryPrice
    exitTime := some c.ts
    exitPrice := sp.tpPrice
    grossPnlInr := grossShortAt sp.tpPrice sp.entryPrice
    swapChargesInr := 0
    feesInr := FEE_INR_PER_TRADE
    maeInr := sp.maeInr
    netPnlInr := grossShortAt sp.tpPrice sp.entryPrice - FEE_INR_PER_TRADE
    size := sp.size
    status := Status.closedTPSameCandle }

/-- Same-candle take-profit checks on the freshly opened pair (lines
384-449): if the candle high already reaches the new long's TP it is closed
immediately, and if the candle low already reaches the new short's TP (and
the short is still in the open list) it is closed immediately.  The
source's list.remove removes the first dict equal to the fresh position;
List.erase has the same semantics. -/
def sameCandleChecks (c : CandleS) (st : StateS) (np : Option (PosS × PosS)) : StateS :=
  match np with
  | none => st
  | some (lp, sp) =>
    let st1 :=
      if lp.tpPrice ≤ c.high then
        closeTrade { st with openLongPositions := st.openLongPositions.erase lp }
          (mkSameCandleLongTrade c lp)
      else st
    if st1.openShortPositions.contains sp ∧ c.low ≤ sp.tpPrice then
      closeTrade { st1 with openShortPositions := st1.openShortPositions.erase sp }
        (mkSameCandleShortTrade c sp)
    else st1

/-- Day-change bookkeeping at the top of the candle loop (lines 85-89). -/
def dayUpdate (c : CandleS) (st : StateS) : StateS :=
  if st.currentDay ≠ some c.ts.day then
    { st with dailyOpenPrice := some c.opn, currentDay := some c.ts.day }
  else st

/-- All exit phases of one candle followed by the entry-target bookkeeping,
up to but excluding the entry step. -/
def silverPreEntry (c : CandleS) (st : StateS) : StateS :=
  concMaePhase c (manageShorts c (manageLongs c (ninetyDayShorts c (ninetyDayLongs c st))))

/-- One candle of run_backtest (lines 78-452): day-change update, the
(dead, but modelled) skip when no daily open is known, the 90-day rule for
longs then shorts, managing open longs then shorts, the concurrent
adverse-excursion snapshot, and the entry step with its same-candle TP
checks. -/
def silverStep (st : StateS) (c : CandleS) : StateS :=
  let st0 := dayUpdate c st
  match st0.dailyOpenPrice with
  | none => st0
  | some dOpen =>
    let st5 := silverPreEntry c st0
    let pr := entryOpen c dOpen st5
    sameCandleChecks c pr.1 pr.2

/-- The state reached within a candle immediately after the entry step has
appended the new long and its paired short, before the same-candle TP
checks: the intermediate point of silverStep at which the open-position
count is largest. -/
def silverMidEntry (c : CandleS) (st : StateS) : StateS :=
  let st0 := dayUpdate c st
  match st0.dailyOpenPrice with
  | none => st0
  | some dOpen => (entryOpen c dOpen (silverPreEntry c st0)).1

/-- The initial state of run_backtest. -/
def initStateS : StateS :=
  { trades := []
    openLongPositions := []
    openShortPositions := []
    equity := STARTING_BALANCE_INR
    peakEquity := STARTING_BALANCE_INR
    maxDrawdown := 0
    maxConcurrentMae := 0
    dailyOpenPrice := none
    currentDay := none
    opened := 0
    minEquity := STARTING_BALANCE_INR }

/-- End-of-data record for a long still open after the last candle (lines
459-484): marked STILL_OPEN, exit price is the last close, swap prorated by
days held, no fee, and the net P&L is not added to equity. -/
def mkStillOpenLongTrade (last : CandleS) (p : PosS) : TradeS :=
  let gross := grossLongAt last.close p.entryPrice
  let swap := (daysHeld p.entryTime last.ts : ℚ) * SWAP_LONG_INR_PER_NIGHT
  { tradeType := TradeType.tLong
    entryTime := p.entryTime
    entryPrice := p.entryPrice
    exitTime := none
    exitPrice := last.close
    grossPnlInr := gross
    swapChargesInr := swap
    feesInr := 0
    maeInr := p.maeInr
    netPnlInr := gross + swap
    size := p.size
    status := Status.stillOpen }

/-- End-of-data record for a short still open after the last candle (lines
486-512). -/
def mkStillOpenShortTrade (last : CandleS) (p : PosS) : TradeS :=
  let gross := grossShortAt last.close p.entryPrice
  let swap := (daysHeld p.entryTime last.ts : ℚ) * SWAP_SHORT_INR_PER_NIGHT
  { tradeType := p.tradeType
    entryTime := p.entryTime
    entryPrice := p.entryPrice
    exitTime := none
    exitPrice := last.close
    grossPnlInr := gross
    swapChargesInr := swap
    feesInr := 0
    maeInr := p.maeInr
    netPnlInr := gross + swap
    size := p.size
    status := Status.stillOpen }

/-- End-of-data pass (lines 454-512): every position still open after the
last candle is appended to the ledger as STILL_OPEN; equity is not
touched and the open lists are left as they are, as in the source. -/
def endOfData (df : List CandleS) (st : StateS) : StateS :=
  match df.getLast? with
  | none => st
  | some last =>
    { st with trades := st.trades
        ++ st.openLongPositions.map (mkStillOpenLongTrade last)
        ++ st.openShortPositions.map (mkStillOpenShortTrade last) }

/-- run_backtest: fold the candle step over the frame from the initial
state, then the end-of-data pass.  The source returns the tuple (trades,
equity, max_drawdown, max_concurrent_mae), all carried in the state. -/
def runBacktestSilver (df : List CandleS) : StateS :=
  endOfData df (df.foldl silverStep initStateS)

/-- Number of open positions across both directions. -/
def openCount (st : StateS) : Nat :=
  st.openLongPositions.length + st.openShortPositions.length

/-- Sum of net P&L over the closed records of a ledger (those whose status
is not STILL_OPEN). -/
def closedNetSum (trades : List TradeS) : ℚ :=
  ((trades.filter (fun t => t.status ≠ Status.stillOpen)).map
    (fun t => t.netPnlInr)).sum

/-- Drawdown soundness of a state: the tracked maximum drawdown is
nonnegative, and it is at most 1 as long as the running equity has never
been negative after an equity update. -/
def ddInv (st : StateS) : Prop :=
  0 ≤ st.maxDrawdown ∧ (0 ≤ st.minEquity → st.maxDrawdown ≤ 1)

/-- Bookkeeping invariant of the candle loop: every position ever opened is
accounted for exactly once (as a ledger record or as a still-open
position), running equity is the initial balance plus the net P&L of the
closed records, and no record is marked STILL_OPEN before the end-of-data
pass. -/
def silverLoopInv (st : StateS) : Prop :=
  st.trades.length + st.openLongPositions.length + st.openShortPositions.length
      = st.opened ∧
  st.equity = STARTING_BALANCE_INR + closedNetSum st.trades ∧
  ∀ t ∈ st.trades, t.status ≠ Status.stillOpen

/-! ### Concrete inputs used by counterexamples and witnesses -/

/-- TRADING_WINDOWS_UTC of the source, in seconds of the day:
03:30:00-11:59:59 and 14:15:00-15:30:00. -/
def TRADING_WINDOWS_UTC : List (Nat × Nat) := [(12600, 43199), (51300, 55800)]

/-- Placeholder signal for getD. -/
def dummySignal : Signal :=
  { entryTs := 0, entryPrice := 0, direction := Dir.long
    s15 := [], r15 := [], s4h := [], r4h := [], crossIdx := 0, crossTs := 0 }

/-- Placeholder silver ledger record for getD. -/
def dummyTradeS : TradeS :=
  { tradeType := TradeType.tLong, entryTime := ⟨0, 0⟩, entryPrice := 0
    exitTime := none, exitPrice := 0, grossPnlInr := 0, swapChargesInr := 0
    feesInr := 0, maeInr := 0, netPnlInr := 0, size := 0, status := Status.stillOpen }

/-- A 3-candle 5-minute frame on which an accepted long (stop 99, target
102, entry 100 at the first bar) never exits: the following candles stay
inside the stop/target band and have undefined RSI columns. -/
def cexC1df : List Bar5 :=
  [ { ts := 0, opn := 100, high := 100, low := 100, close := 100
      rsi := none, smaRsi := none, atr := none }
  , { ts := 1, opn := 100, high := 101, low := 995 / 10, close := 100
      rsi := none, smaRsi := none, atr := none }
  , { ts := 2, opn := 100, high := 101, low := 995 / 10, close := 100
      rsi := none, smaRsi := none, atr := none } ]

/-- A signal accepted on cexC1df: stop 99 (distance 1), target 102
(reward 2), both validation checks pass. -/
def cexC1sig : Signal :=
  { entryTs := 0, entryPrice := 100, direction := Dir.long
    s15 := [99], r15 := [102], s4h := [], r4h := [], crossIdx := 0, crossTs := 0 }

/-- A 2-candle frame whose second candle breaches both the stop 99 and the
target 102 of a long entered on the first candle. -/
def witC4df : List Bar5 :=
  [ { ts := 0, opn := 100, high := 100, low := 100, close := 100
      rsi := none, smaRsi := none, atr := none }
  , { ts := 1, opn := 100, high := 103, low := 98, close := 100
      rsi := none, smaRsi := none, atr := none } ]

/-- The signal driving witC4df: same stop/target geometry as cexC1sig. -/
def witC4sig : Signal :=
  { entryTs := 0, entryPrice := 100, direction := Dir.long
    s15 := [99], r15 := [102], s4h := [], r4h := [], crossIdx := 0, crossTs := 0 }

/-- A 5-minute frame with a long RSI/SMA crossing at bar 1 (rsi 40 over
sma 30, previous bar 50 at 50) inside the first trading window, confirmed
by the bullish bar 2 closing at 100.5. -/
def witC9df5 : List Bar5 :=
  [ { ts := 0, opn := 100, high := 100, low := 100, close := 100
      rsi := some 50, smaRsi := some 50, atr := some 1 }
  , { ts := 13000, opn := 100, high := 100, low := 100, close := 100
      rsi := some 40, smaRsi := some 30, atr := some 1 }
  , { ts := 13300, opn := 100, high := 101, low := 100, close := 1005 / 10
      rsi := some 40, smaRsi := some 30, atr := some 1 } ]

/-- A 50-bar 15-minute frame whose last close (90) sits below its 50-bar
moving average (99.8), so the trend is down; the flat last bar collapses
all pivot levels to the single value 90, far below the 100.5 entry, so the
nearness exclusion does not fire. -/
def witC9htf15 : List HTFBar :=
  List.replicate 49 { ts := 0, opn := 100, high := 100, low := 100, close := 100 }
    ++ [{ ts := 0, opn := 90, high := 90, low := 90, close := 90 }]

/-- The signal emitted on witC9df5/witC9htf15: long, confirmed by bar 2,
entering at bar 2's close 100.5. -/
def witC9sig : Signal :=
  { entryTs := 13300, entryPrice := 201 / 2, direction := Dir.long
    s15 := [90], r15 := [90], s4h := [], r4h := [], crossIdx := 1, crossTs := 13000 }

/-- The single silver candle ⟨day 0, open 50, high 50, low 49.7, close
49.8⟩: it opens a long at 49.75 (which survives) and the paired short at
51.75 whose TP 50.75 is hit on the same candle; at data end the long is
recorded STILL_OPEN with net P&L 220 that is not added to equity. -/
def witSilverDf : List CandleS :=
  [ { ts := ⟨0, 0⟩, opn := 50, high := 50, low := 497 / 10, close := 498 / 10 } ]

/-- Two silver candles 10001 days apart: the long opened on day 0 survives
the 90-day rule on the second candle (its floating P&L is far below the
-5000 floor because of the accumulated swap) and then hits its take profit
there, realising a net loss of 197608.71 INR that drives equity to
-93297.45 and the recorded drawdown above 1. -/
def cexC6df : List CandleS :=
  [ { ts := ⟨0, 0⟩, opn := 50, high := 50, low := 497 / 10, close := 498 / 10 }
  , { ts := ⟨10001, 0⟩, opn := 50, high := 504 / 10, low := 499 / 10, close := 50 } ]

/-- Entry ladder price for the concurrency-cap scenario:
49.75 - 0.5 * k. -/
def c3entry (k : Nat) : ℚ := 199 / 4 - (1 / 2) * (k : ℚ)

/-- Candle k of the concurrency-cap scenario, all on day 0: candle 0 opens
at 50 (daily open) and dips to the first entry target 49.75; candle k dips
exactly to the k-th ladder entry 49.75 - 0.5k while its high stays 0.2
above it, below every open TP, so the long opened on each candle stays
open while its paired short always closes on the same candle. -/
def c3candle (k : Nat) : CandleS :=
  if k = 0 then { ts := ⟨0, 0⟩, opn := 50, high := 501 / 10, low := 199 / 4, close := 50 }
  else
    { ts := ⟨0, k⟩, opn := c3entry k + 1 / 10, high := c3entry k + 2 / 10
      low := c3entry k, close := c3entry k + 1 / 10 }

/-- The first 29 candles of the concurrency-cap scenario: after them 29
longs are open and no shorts. -/
def cexC3df29 : List CandleS :=
  (List.range 29).map c3candle

/-- The 30th candle of the concurrency-cap scenario: before its entry step
29 positions are open, so the step opens a 30th long and its paired short,
momentarily holding 31 open positions. -/
def cexC3c30 : CandleS := c3candle 29

/-- A neutral candle used to instantiate the mid-entry bound. -/
def witC3candle : CandleS :=
  { ts := ⟨0, 0⟩, opn := 1, high := 1, low := 1, close := 1 }

/-- The candle range reaches or crosses the stop price on the adverse side
(low for a long, high for a short). -/
def breachesStopB (dir : Dir) (sl : ℚ) (candle : Bar5) : Bool :=
  match dir with
  | Dir.long => decide (candle.low ≤ sl)
  | Dir.short => decide (sl ≤ candle.high)

/-- The candle range reaches or crosses the target price on the favorable
side (high for a long, low for a short). -/
def breachesTargetB (dir : Dir) (tp : ℚ) (candle : Bar5) : Bool :=
  match dir with
  | Dir.long => decide (tp ≤ candle.high)
  | Dir.short => decide (candle.low ≤ tp)

/-- The exit candle of the witC4df scenario. -/
def witC4candle : Bar5 :=
  { ts := 1, opn := 100, high := 103, low := 98, close := 100
    rsi := none, smaRsi := none, atr := none }

/-- The exit found on witC4df: stop hit at 99 on candle 1. -/
def witC4exit : ExitInfo :=
  { idx := 1, px := 99, ts := 1, reason := ExitReason.slHit }

/-- A level of the signal's combined snapshot lying beyond entry in the
adverse direction, i.e. a candidate stop level: below entry among supports
for a long, above entry among resistances for a short. -/
def IsStopLevel (sig : Signal) (x : ℚ) : Prop :=
  match sig.direction with
  | Dir.long => x ∈ allSupports sig ∧ x < sig.entryPrice
  | Dir.short => x ∈ allResistances sig ∧ sig.entryPrice < x

/-- A level of the signal's combined snapshot lying beyond entry in the
favorable direction, i.e. a candidate target level. -/
def IsTargetLevel (sig : Signal) (x : ℚ) : Prop :=
  match sig.direction with
  | Dir.long => x ∈ allResistances sig ∧ sig.entryPrice < x
  | Dir.short => x ∈ allSupports sig ∧ x < sig.entryPrice

/-- The nearest snapshot level beyond entry in the adverse direction: a
candidate stop level closest to the entry price among all of them. -/
def IsNearestAdverse (sig : Signal) (x : ℚ) : Prop :=
  match sig.direction with
  | Dir.long => (x ∈ allSupports sig ∧ x < sig.entryPrice) ∧
      ∀ y ∈ allSupports sig, y < sig.entryPrice → y ≤ x
  | Dir.short => (x ∈ allResistances sig ∧ sig.entryPrice < x) ∧
      ∀ y ∈ allResistances sig, sig.entryPrice < y → x ≤ y

/-- The nearest snapshot level beyond entry in the favorable direction. -/
def IsNearestFavorable (sig : Signal) (x : ℚ) : Prop :=
  match sig.direction with
  | Dir.long => (x ∈ allResistances sig ∧ sig.entryPrice < x) ∧
      ∀ y ∈ allResistances sig, sig.entryPrice < y → x ≤ y
  | Dir.short => (x ∈ allSupports sig ∧ x < sig.entryPrice) ∧
      ∀ y ∈ allSupports sig, y < sig.entryPrice → y ≤ x

/-- The rejection condition exactly as claim C7 words it: the signal is
rejected when NEITHER a stop level NOR a target level can be derived
(both missing), when the derived stop distance is below the floor, or when
the reward distance is less than the risk distance. -/
def c7ClaimRejectB (pipVal : ℚ) (sig : Signal) : Bool :=
  ((slCandidate sig).isNone && (tpCandidate sig).isNone) ||
  (match slCandidate sig with
   | some sl => decide (|sig.entryPrice - sl| < MIN_SL_DISTANCE_PIPS * pipVal)
   | none => false) ||
  (match slCandidate sig, tpCandidate sig with
   | some sl, some tp => decide (|tp - sig.entryPrice| < |sig.entryPrice - sl|)
   | _, _ => false)

/-- A long signal at entry 100 whose snapshot has a support below entry
(99) but no resistance above entry: a stop can be derived but no target. -/
def cexC7sig : Signal :=
  { entryTs := 0, entryPrice := 100, direction := Dir.long
    s15 := [99], r15 := [], s4h := [], r4h := [], crossIdx := 0, crossTs := 0 }

/-- A ledger record of executeBacktest originates from a signal: the
signal passed validation, its entry candle was found, the scan (starting
strictly after the entry index) produced the exit, and the record carries
the signal's entry timestamp and the exit candle's timestamp. -/
def spawnedBy (df5 : List Bar5) (pipVal : ℚ) (sig : Signal) (t : TradeF) : Prop :=
  ∃ sl tp entryIdx e,
    tradeSetup pipVal sig = some (sl, tp) ∧
    df5.findIdx? (fun b => b.ts = sig.entryTs) = some entryIdx ∧
    exitScan df5 sig.direction sl tp (entryIdx + 1) df5.length = some e ∧
    t.entryTs = sig.entryTs ∧ t.exitTs = e.ts

/-! ## Theorems -/

/-! ### Properties of sortedDedup -/

theorem sortedDedup_sorted (xs : List ℚ) :
    (sortedDedup xs).Sorted (· ≤ ·) :=
  List.sorted_insertionSort _ _

theorem sortedDedup_perm (xs : List ℚ) : List.Perm (sortedDedup xs) xs.dedup :=
  List.perm_insertionSort _ _

theorem sortedDedup_nodup (xs : List ℚ) : (sortedDedup xs).Nodup :=
  (sortedDedup_perm xs).nodup_iff.mpr xs.nodup_dedup

theorem mem_sortedDedup {x : ℚ} {xs : List ℚ} :
    x ∈ sortedDedup xs ↔ x ∈ xs := by
  rw [(sortedDedup_perm xs).mem_iff, List.mem_dedup]

theorem sortedDedup_sorted_lt (xs : List ℚ) :
    (sortedDedup xs).Sorted (· < ·) := by
  have hs := sortedDedup_sorted xs
  have hn := sortedDedup_nodup xs
  exact (hs.and hn).imp (fun h => lt_of_le_of_ne h.1 h.2)

theorem sortedDedup_length_le (xs : List ℚ) :
    (sortedDedup xs).length ≤ xs.length := by
  rw [(sortedDedup_perm xs).length_eq]
  exact xs.dedup_sublist.length_le

theorem sortedDedup_ne_nil {xs : List ℚ} (h : xs ≠ []) : sortedDedup xs ≠ [] := by
  intro hc
  rcases List.exists_mem_of_ne_nil xs h with ⟨x, hx⟩
  have : x ∈ sortedDedup xs := mem_sortedDedup.mpr hx
  simp [hc] at this

/-! ### C8: pivot levels -/

/-- C8, counterexample: the claim says get_pivot_points returns exactly
three support and exactly three resistance levels, but on the bar with
high 110, low 90, close 100 (pivot 100) both returned lists additionally
contain the pivot itself and have four elements. -/
theorem claimC8_counterexample :
    (getPivotPoints 110 90 100).1.length = 4 ∧
      (getPivotPoints 110 90 100).2.length = 4 := by
  constructor <;> with_unfolding_all decide

/-- C8, amended: for every bar with defined high H, low L, close C, the
support/resistance computation with pivot = (H+L+C)/3 returns the three
derived support levels together with the pivot itself (and likewise for
resistances), as a sorted, de-duplicated list of between one and four
values (exactly four when the three levels and the pivot are pairwise
distinct, as in the counterexample). -/
theorem claimC8_pivot_levels_amended (h l c : ℚ) :
    (getPivotPoints h l c).1.Sorted (· < ·) ∧
    (getPivotPoints h l c).2.Sorted (· < ·) ∧
    (∀ x : ℚ, x ∈ (getPivotPoints h l c).1 ↔
      (x = 2 * ((h + l + c) / 3) - h ∨ x = (h + l + c) / 3 - (h - l) ∨
        x = l - 2 * (h - (h + l + c) / 3) ∨ x = (h + l + c) / 3)) ∧
    (∀ x : ℚ, x ∈ (getPivotPoints h l c).2 ↔
      (x = 2 * ((h + l + c) / 3) - l ∨ x = (h + l + c) / 3 + (h - l) ∨
        x = h + 2 * ((h + l + c) / 3 - l) ∨ x = (h + l + c) / 3)) ∧
    1 ≤ (getPivotPoints h l c).1.length ∧ (getPivotPoints h l c).1.length ≤ 4 ∧
    1 ≤ (getPivotPoints h l c).2.length ∧ (getPivotPoints h l c).2.length ≤ 4 := by
  refine ⟨sortedDedup_sorted_lt _, sortedDedup_sorted_lt _, ?_, ?_, ?_, ?_, ?_, ?_⟩
  · intro x
    simp [getPivotPoints, mem_sortedDedup]
  · intro x
    simp [getPivotPoints, mem_sortedDedup]
  · have : (getPivotPoints h l c).1 ≠ [] := by
      apply sortedDedup_ne_nil; simp
    exact List.length_pos.mpr this
  · exact sortedDedup_length_le _
  · have : (getPivotPoints h l c).2 ≠ [] := by
      apply sortedDedup_ne_nil; simp
    exact List.length_pos.mpr this
  · exact sortedDedup_length_le _

/-! ### C4: stop checked before target -/

theorem candleExit_idx {dir : Dir} {sl tp : ℚ} {c p : Bar5} {k : Nat} {e : ExitInfo}
    (h : candleExit dir sl tp c p k = some e) : e.idx = k := by
  cases dir <;> simp only [candleExit] at h <;> split at h
  · exact (Option.some_inj.mp h).symm ▸ rfl
  · split at h
    · exact (Option.some_inj.mp h).symm ▸ rfl
    · split at h
      · split at h
        · exact (Option.some_inj.mp h).symm ▸ rfl
        · exact absurd h (by simp)
      · exact absurd h (by simp)
  · exact (Option.some_inj.mp h).symm ▸ rfl
  · split at h
    · exact (Option.some_inj.mp h).symm ▸ rfl
    · split at h
      · split at h
        · exact (Option.some_inj.mp h).symm ▸ rfl
        · exact absurd h (by simp)
      · exact absurd h (by simp)

theorem candleExit_stopFirst {dir : Dir} {sl tp : ℚ} {c p : Bar5} {k : Nat}
    (hstop : breachesStopB dir sl c = true) :
    candleExit dir sl tp c p k = some ⟨k, sl, c.ts, ExitReason.slHit⟩ := by
  cases dir <;> simp only [breachesStopB, decide_eq_true_eq] at hstop <;>
    simp [candleExit, hstop]

theorem exitScan_sound (df5 : List Bar5) (dir : Dir) (sl tp : ℚ) :
    ∀ fuel k e, exitScan df5 dir sl tp k fuel = some e →
      k ≤ e.idx ∧ ∃ candle prevCandle, df5.get? e.idx = some candle ∧
        df5.get? (e.idx - 1) = some prevCandle ∧
        candleExit dir sl tp candle prevCandle e.idx = some e := by
  intro fuel
  induction fuel with
  | zero => intro k e h; simp [exitScan] at h
  | succ n ih =>
    intro k e h
    rw [exitScan] at h
    cases hc : df5.get? k with
    | none => rw [hc] at h; cases hp : df5.get? (k - 1) <;> rw [hp] at h <;> simp at h
    | some c =>
      rw [hc] at h
      cases hp : df5.get? (k - 1) with
      | none => rw [hp] at h; simp at h
      | some p =>
        rw [hp] at h
        replace h : (match candleExit dir sl tp c p k with
            | some e' => some e'
            | none => exitScan df5 dir sl tp (k + 1) n) = some e := h
        cases hce : candleExit dir sl tp c p k with
        | some e' =>
          rw [hce] at h
          simp only [Option.some_inj] at h
          subst h
          have hidx := candleExit_idx hce
          refine ⟨le_of_eq hidx.symm, c, p, ?_, ?_, ?_⟩ <;> rw [hidx] <;> assumption
        | none =>
          rw [hce] at h
          obtain ⟨hk, rest⟩ := ih (k + 1) e h
          exact ⟨le_trans (Nat.le_succ k) hk, rest⟩

/-- C4: for every position and every candle whose range breaches both the
stop and the target price, the exit scan closes the position as a stop hit
at the stop price, never as a target hit: the stop condition is evaluated
before the target condition on each candle. -/
theorem claimC4_stop_before_target (df5 : List Bar5) (dir : Dir) (sl tp : ℚ)
    (start fuel : Nat) (e : ExitInfo) (candle : Bar5)
    (hscan : exitScan df5 dir sl tp start fuel = some e)
    (hcandle : df5.get? e.idx = some candle)
    (hstop : breachesStopB dir sl candle = true)
    (htarget : breachesTargetB dir tp candle = true) :
    e.px = sl ∧ e.reason = ExitReason.slHit ∧ e.reason ≠ ExitReason.tpHit := by
  obtain ⟨-, c, p, hc, hp, hce⟩ := exitScan_sound df5 dir sl tp fuel start e hscan
  rw [hcandle] at hc
  have hcand : c = candle := by injection hc with h; exact h.symm
  subst hcand
  rw [candleExit_stopFirst hstop] at hce
  have he : e = ⟨e.idx, sl, c.ts, ExitReason.slHit⟩ := (Option.some_inj.mp hce).symm
  rw [he]
  exact ⟨rfl, rfl, by simp⟩

/-- C4, witness: on witC4df the long with stop 99 and target 102 meets
candle 1 with low 98 and high 103, breaching both; the scan exits at the
stop price 99 with the stop-hit reason. -/
theorem claimC4_witness :
    exitScan witC4df Dir.long 99 102 1 2 = some witC4exit ∧
    witC4df.get? witC4exit.idx = some witC4candle ∧
    breachesStopB Dir.long 99 witC4candle = true ∧
    breachesTargetB Dir.long 102 witC4candle = true ∧
    witC4exit.px = 99 ∧ witC4exit.reason = ExitReason.slHit ∧
    witC4exit.reason ≠ ExitReason.tpHit := by
  have h1 : exitScan witC4df Dir.long 99 102 1 2 = some witC4exit := by
    with_unfolding_all decide
  have h2 : witC4df.get? witC4exit.idx = some witC4candle := by
    with_unfolding_all decide
  have h3 : breachesStopB Dir.long 99 witC4candle = true := by
    with_unfolding_all decide
  have h4 : breachesTargetB Dir.long 102 witC4candle = true := by
    with_unfolding_all decide
  obtain ⟨hp, hr, hn⟩ :=
    claimC4_stop_before_target witC4df Dir.long 99 102 1 2 witC4exit witC4candle h1 h2 h3 h4
  exact ⟨h1, h2, h3, h4, hp, hr, hn⟩

/-! ### C10: exit evaluation starts strictly after the entry candle -/

theorem candleExit_ts {dir : Dir} {sl tp : ℚ} {c p : Bar5} {k : Nat} {e : ExitInfo}
    (h : candleExit dir sl tp c p k = some e) : e.ts = c.ts := by
  cases dir <;> simp only [candleExit] at h <;> split at h
  · exact (Option.some_inj.mp h).symm ▸ rfl
  · split at h
    · exact (Option.some_inj.mp h).symm ▸ rfl
    · split at h
      · split at h
        · exact (Option.some_inj.mp h).symm ▸ rfl
        · exact absurd h (by simp)
      · exact absurd h (by simp)
  · exact (Option.some_inj.mp h).symm ▸ rfl
  · split at h
    · exact (Option.some_inj.mp h).symm ▸ rfl
    · split at h
      · split at h
        · exact (Option.some_inj.mp h).symm ▸ rfl
        · exact absurd h (by simp)
      · exact absurd h (by simp)

theorem executeStep_trades (df5 : List Bar5) (units pipVal : ℚ)
    (acc : List TradeF × ℚ) (sig : Signal) (t : TradeF)
    (ht : t ∈ (executeStep df5 units pipVal acc sig).1) :
    t ∈ acc.1 ∨ spawnedBy df5 pipVal sig t := by
  unfold executeStep at ht
  split at ht
  · exact Or.inl ht
  · rename_i sl tp heq
    split at ht
    · exact Or.inl ht
    · rename_i entryIdx hfind
      split at ht
      · exact Or.inl ht
      · rename_i e hscan
        split at ht
        · exact Or.inl ht
        · simp only [List.mem_append, List.mem_singleton] at ht
          rcases ht with h | h
          · exact Or.inl h
          · subst h
            exact Or.inr ⟨sl, tp, entryIdx, e, heq, hfind, hscan, rfl, rfl⟩

theorem executeBacktest_trades (df5 : List Bar5) (units pipVal : ℚ)
    (sigs : List Signal) (t : TradeF) :
    ∀ acc : List TradeF × ℚ,
      t ∈ (List.foldl (executeStep df5 units pipVal) acc sigs).1 →
      t ∈ acc.1 ∨ ∃ sig ∈ sigs, spawnedBy df5 pipVal sig t := by
  induction sigs with
  | nil => intro acc h; exact Or.inl h
  | cons sig rest ih =>
    intro acc h
    rw [List.foldl_cons] at h
    rcases ih (executeStep df5 units pipVal acc sig) h with h1 | ⟨sig', hmem, hsp⟩
    · rcases executeStep_trades df5 units pipVal acc sig t h1 with h2 | h2
      · exact Or.inl h2
      · exact Or.inr ⟨sig, List.mem_cons_self _ _, h2⟩
    · exact Or.inr ⟨sig', List.mem_cons_of_mem _ hmem, hsp⟩

/-- C10: exit evaluation for an accepted signal begins at the candle
strictly after the entry candle, so when the frame's timestamps are
strictly increasing every recorded trade of this simulator has an exit
timestamp strictly later than its entry timestamp: there is no same-candle
entry-then-exit in this variant. -/
theorem claimC10_exit_strictly_after_entry (df5 : List Bar5) (signals : List Signal)
    (init units pipVal : ℚ)
    (hmono : List.Chain' (· < ·) (df5.map Bar5.ts)) :
    ∀ t ∈ (executeBacktest df5 signals init units pipVal).1, t.entryTs < t.exitTs := by
  intro t ht
  rcases executeBacktest_trades df5 units pipVal signals t ([], init) ht with h | ⟨sig, -, hsp⟩
  · simp at h
  · obtain ⟨sl, tp, entryIdx, e, -, hfind, hscan, hets, hxts⟩ := hsp
    obtain ⟨hlen₁, hpred, -⟩ := List.findIdx?_eq_some_iff_getElem.mp hfind
    obtain ⟨hstart, c, p, hgc, -, hce⟩ :=
      exitScan_sound df5 sig.direction sl tp df5.length (entryIdx + 1) e hscan
    have hcts : e.ts = c.ts := candleExit_ts hce
    rw [List.get?_eq_getElem?] at hgc
    obtain ⟨hlen₂, hcval⟩ := List.getElem?_eq_some_iff.mp hgc
    have hpw : df5.Pairwise (fun a b => a.ts < b.ts) := by
      have := List.chain'_iff_pairwise.mp hmono
      rwa [List.pairwise_map] at this
    have hij : entryIdx < e.idx := Nat.lt_of_succ_le hstart
    have hts : df5[entryIdx].ts < df5[e.idx].ts :=
      List.pairwise_iff_getElem.mp hpw entryIdx e.idx hlen₁ hlen₂ hij
    have hentry : df5[entryIdx].ts = sig.entryTs := of_decide_eq_true hpred
    rw [hets, hxts, hcts, ← hcval, ← hentry]
    exact hts

/-- C10, witness: on witC4df with the signal witC4sig the simulator
records exactly one trade, whose exit timestamp 1 is strictly later than
its entry timestamp 0; the frame's timestamps are strictly increasing. -/
theorem claimC10_witness :
    List.Chain' (· < ·) (witC4df.map Bar5.ts) ∧
    (executeBacktest witC4df [witC4sig] 100000 200 (1 / 100)).1.length = 1 ∧
    ∀ t ∈ (executeBacktest witC4df [witC4sig] 100000 200 (1 / 100)).1,
      t.entryTs < t.exitTs := by
  have hchain : List.Chain' (· < ·) (witC4df.map Bar5.ts) := by
    simp [witC4df, List.chain'_cons]
  refine ⟨hchain, by with_unfolding_all decide, ?_⟩
  exact claimC10_exit_strictly_after_entry witC4df [witC4sig] 100000 200 (1 / 100) hchain

/-! ### C7: entry validation -/

theorem slCandidate_none_iff (sig : Signal) :
    slCandidate sig = none ↔ ¬ ∃ x, IsStopLevel sig x := by
  cases hdir : sig.direction <;>
    simp [slCandidate, hdir, IsStopLevel, List.max?_eq_none_iff, List.min?_eq_none_iff,
      List.filter_eq_nil_iff]

theorem tpCandidate_none_iff (sig : Signal) :
    tpCandidate sig = none ↔ ¬ ∃ x, IsTargetLevel sig x := by
  cases hdir : sig.direction <;>
    simp [tpCandidate, hdir, IsTargetLevel, List.max?_eq_none_iff, List.min?_eq_none_iff,
      List.filter_eq_nil_iff]

theorem slCandidate_nearest {sig : Signal} {sl : ℚ} (h : slCandidate sig = some sl) :
    IsNearestAdverse sig sl := by
  cases hdir : sig.direction <;> rw [slCandidate, hdir] at h <;>
    rw [IsNearestAdverse, hdir]
  · have hmem := List.max?_mem max_choice h
    rw [List.mem_filter] at hmem
    have hle := (List.max?_le_iff (fun _ _ _ => max_le_iff) h).mp (le_refl sl)
    refine ⟨⟨hmem.1, of_decide_eq_true hmem.2⟩, fun y hy hylt => ?_⟩
    exact hle y (List.mem_filter.mpr ⟨hy, decide_eq_true hylt⟩)
  · have hmem := List.min?_mem min_choice h
    rw [List.mem_filter] at hmem
    have hle := (List.le_min?_iff (fun _ _ _ => le_min_iff) h).mp (le_refl sl)
    refine ⟨⟨hmem.1, of_decide_eq_true hmem.2⟩, fun y hy hylt => ?_⟩
    exact hle y (List.mem_filter.mpr ⟨hy, decide_eq_true hylt⟩)

theorem tpCandidate_nearest {sig : Signal} {tp : ℚ} (h : tpCandidate sig = some tp) :
    IsNearestFavorable sig tp := by
  cases hdir : sig.direction <;> rw [tpCandidate, hdir] at h <;>
    rw [IsNearestFavorable, hdir]
  · have hmem := List.min?_mem min_choice h
    rw [List.mem_filter] at hmem
    have hle := (List.le_min?_iff (fun _ _ _ => le_min_iff) h).mp (le_refl tp)
    refine ⟨⟨hmem.1, of_decide_eq_true hmem.2⟩, fun y hy hylt => ?_⟩
    exact hle y (List.mem_filter.mpr ⟨hy, decide_eq_true hylt⟩)
  · have hmem := List.max?_mem max_choice h
    rw [List.mem_filter] at hmem
    have hle := (List.max?_le_iff (fun _ _ _ => max_le_iff) h).mp (le_refl tp)
    refine ⟨⟨hmem.1, of_decide_eq_true hmem.2⟩, fun y hy hylt => ?_⟩
    exact hle y (List.mem_filter.mpr ⟨hy, decide_eq_true hylt⟩)

theorem isNearestAdverse_unique {sig : Signal} {x y : ℚ}
    (hx : IsNearestAdverse sig x) (hy : IsNearestAdverse sig y) : x = y := by
  cases hdir : sig.direction <;> rw [IsNearestAdverse, hdir] at hx hy
  · exact le_antisymm (hy.2 x hx.1.1 hx.1.2) (hx.2 y hy.1.1 hy.1.2)
  · exact le_antisymm (hx.2 y hy.1.1 hy.1.2) (hy.2 x hx.1.1 hx.1.2)

theorem isNearestFavorable_unique {sig : Signal} {x y : ℚ}
    (hx : IsNearestFavorable sig x) (hy : IsNearestFavorable sig y) : x = y := by
  cases hdir : sig.direction <;> rw [IsNearestFavorable, hdir] at hx hy
  · exact le_antisymm (hx.2 y hy.1.1 hy.1.2) (hy.2 x hx.1.1 hx.1.2)
  · exact le_antisymm (hy.2 x hx.1.1 hx.1.2) (hx.2 y hy.1.1 hy.1.2)

theorem isNearestAdverse_isStopLevel {sig : Signal} {x : ℚ}
    (hx : IsNearestAdverse sig x) : IsStopLevel sig x := by
  cases hdir : sig.direction <;> rw [IsNearestAdverse, hdir] at hx <;>
    rw [IsStopLevel, hdir] <;> exact hx.1

theorem isNearestFavorable_isTargetLevel {sig : Signal} {x : ℚ}
    (hx : IsNearestFavorable sig x) : IsTargetLevel sig x := by
  cases hdir : sig.direction <;> rw [IsNearestFavorable, hdir] at hx <;>
    rw [IsTargetLevel, hdir] <;> exact hx.1

theorem slCandidate_of_nearest {sig : Signal} {sl : ℚ}
    (h : IsNearestAdverse sig sl) : slCandidate sig = some sl := by
  cases hc : slCandidate sig with
  | none =>
    exact absurd ⟨sl, isNearestAdverse_isStopLevel h⟩ ((slCandidate_none_iff sig).mp hc)
  | some v =>
    rw [isNearestAdverse_unique (slCandidate_nearest hc) h]

theorem tpCandidate_of_nearest {sig : Signal} {tp : ℚ}
    (h : IsNearestFavorable sig tp) : tpCandidate sig = some tp := by
  cases hc : tpCandidate sig with
  | none =>
    exact absurd ⟨tp, isNearestFavorable_isTargetLevel h⟩ ((tpCandidate_none_iff sig).mp hc)
  | some v =>
    rw [isNearestFavorable_unique (tpCandidate_nearest hc) h]

theorem stopLevel_risk_pos {sig : Signal} {sl : ℚ} (h : IsStopLevel sig sl) :
    0 < |sig.entryPrice - sl| := by
  cases hdir : sig.direction <;> rw [IsStopLevel, hdir] at h
  · rw [abs_pos]; exact sub_ne_zero.mpr (ne_of_gt h.2)
  · rw [abs_pos]; exact sub_ne_zero.mpr (ne_of_lt h.2)

theorem tradeSetup_eq_of_candidates {pipVal : ℚ} {sig : Signal} {sl tp : ℚ}
    (hsl : slCandidate sig = some sl) (htp : tpCandidate sig = some tp) :
    tradeSetup pipVal sig =
      if |sig.entryPrice - sl| < MIN_SL_DISTANCE_PIPS * pipVal then none
      else if |sig.entryPrice - sl| = 0 ∨ |tp - sig.entryPrice| < |sig.entryPrice - sl| then
        none
      else some (sl, tp) := by
  unfold tradeSetup
  rw [hsl, htp]

theorem tradeSetup_none_of_no_candidate {pipVal : ℚ} {sig : Signal}
    (h : slCandidate sig = none ∨ tpCandidate sig = none) :
    tradeSetup pipVal sig = none := by
  unfold tradeSetup
  rcases h with h | h
  · rw [h]
  · cases hs : slCandidate sig with
    | none => rfl
    | some v => rw [h]

/-- C7, counterexample: on a long signal whose snapshot yields a stop level
(99, distance 1 from the entry 100, above the 0.1 floor) but no target
level, the simulator rejects the signal, although none of the rejection
conditions listed by the claim (both levels missing, stop distance below
the floor, reward less than risk) holds; the claim's otherwise-branch
would have opened a position. -/
theorem claimC7_counterexample :
    tradeSetup (1 / 100) cexC7sig = none ∧
      c7ClaimRejectB (1 / 100) cexC7sig = false := by
  constructor <;> with_unfolding_all decide

/-- C7, amended: a signal is rejected exactly when the stop level or
(rather than and) the target level cannot be derived from its snapshot,
when the derived stop distance is below the minimum-distance floor, or
when the reward distance is less than the risk distance; otherwise the
position's stop is the nearest snapshot level beyond entry in the adverse
direction and its target the nearest level beyond entry in the favorable
direction.  (The source's additional risk-zero rejection can never fire
because a derived stop is strictly beyond entry.) -/
theorem claimC7_entry_validation_amended (pipVal : ℚ) (sig : Signal) :
    (tradeSetup pipVal sig = none ↔
      (¬ ∃ x, IsStopLevel sig x) ∨ (¬ ∃ x, IsTargetLevel sig x) ∨
      (∃ sl tp, IsNearestAdverse sig sl ∧ IsNearestFavorable sig tp ∧
        (|sig.entryPrice - sl| < MIN_SL_DISTANCE_PIPS * pipVal ∨
          |tp - sig.entryPrice| < |sig.entryPrice - sl|))) ∧
    (∀ sl tp, tradeSetup pipVal sig = some (sl, tp) →
      IsNearestAdverse sig sl ∧ IsNearestFavorable sig tp) := by
  constructor
  · constructor
    · intro hnone
      cases hsl : slCandidate sig with
      | none => exact Or.inl ((slCandidate_none_iff sig).mp hsl)
      | some sl =>
        cases htp : tpCandidate sig with
        | none => exact Or.inr (Or.inl ((tpCandidate_none_iff sig).mp htp))
        | some tp =>
          rw [tradeSetup_eq_of_candidates hsl htp] at hnone
          have hnsl := slCandidate_nearest hsl
          have hntp := tpCandidate_nearest htp
          by_cases hd : |sig.entryPrice - sl| < MIN_SL_DISTANCE_PIPS * pipVal
          · exact Or.inr (Or.inr ⟨sl, tp, hnsl, hntp, Or.inl hd⟩)
          · rw [if_neg hd] at hnone
            by_cases hr : |sig.entryPrice - sl| = 0 ∨
                |tp - sig.entryPrice| < |sig.entryPrice - sl|
            · rcases hr with h0 | hlt
              · exact absurd h0
                  (ne_of_gt (stopLevel_risk_pos (isNearestAdverse_isStopLevel hnsl)))
              · exact Or.inr (Or.inr ⟨sl, tp, hnsl, hntp, Or.inr hlt⟩)
            · rw [if_neg hr] at hnone
              exact absurd hnone (by simp)
    · intro hcond
      rcases hcond with h | h | ⟨sl, tp, hnsl, hntp, hc⟩
      · exact tradeSetup_none_of_no_candidate (Or.inl ((slCandidate_none_iff sig).mpr h))
      · exact tradeSetup_none_of_no_candidate (Or.inr ((tpCandidate_none_iff sig).mpr h))
      · rw [tradeSetup_eq_of_candidates (slCandidate_of_nearest hnsl)
          (tpCandidate_of_nearest hntp)]
        rcases hc with hd | hlt
        · rw [if_pos hd]
        · by_cases hd : |sig.entryPrice - sl| < MIN_SL_DISTANCE_PIPS * pipVal
          · rw [if_pos hd]
          · rw [if_neg hd, if_pos (Or.inr hlt)]
  · intro sl tp hsome
    cases hsl : slCandidate sig with
    | none =>
      rw [tradeSetup_none_of_no_candidate (Or.inl hsl)] at hsome
      exact absurd hsome (by simp)
    | some sl' =>
      cases htp : tpCandidate sig with
      | none =>
        rw [tradeSetup_none_of_no_candidate (Or.inr htp)] at hsome
        exact absurd hsome (by simp)
      | some tp' =>
        rw [tradeSetup_eq_of_candidates hsl htp] at hsome
        split at hsome
        · exact absurd hsome (by simp)
        · split at hsome
          · exact absurd hsome (by simp)
          · have hpair : sl' = sl ∧ tp' = tp := by
              have := Option.some_inj.mp hsome
              exact ⟨congrArg Prod.fst this, congrArg Prod.snd this⟩
            rw [← hpair.1, ← hpair.2]
            exact ⟨slCandidate_nearest hsl, tpCandidate_nearest htp⟩

/-- C7, witness: the signal of the witC4df scenario passes validation with
stop 99 and target 102, which are respectively the nearest snapshot level
below and above the entry 100. -/
theorem claimC7_witness :
    tradeSetup (1 / 100) witC4sig = some (99, 102) ∧
      IsNearestAdverse witC4sig 99 ∧ IsNearestFavorable witC4sig 102 := by
  have hsetup : tradeSetup (1 / 100) witC4sig = some (99, 102) := by
    with_unfolding_all decide
  obtain ⟨h1, h2⟩ :=
    (claimC7_entry_validation_amended (1 / 100) witC4sig).2 99 102 hsetup
  exact ⟨hsetup, h1, h2⟩

/-! ### C9: signal confirmation -/

theorem signalAt_confirmation {df5 : List Bar5} {htf15 htf4h : List HTFBar}
    {windows : List (Nat × Nat)} {lt st : ℚ} {i : Nat} {sig : Signal}
    (h : signalAt df5 htf15 htf4h windows lt st i = some sig) :
    ∃ curr prev cc, df5.get? i = some curr ∧ df5.get? (i - 1) = some prev ∧
      df5.get? (i + 1) = some cc ∧ sig.entryPrice = cc.close ∧ sig.entryTs = cc.ts ∧
      ∃ rc sc rp sp, curr.rsi = some rc ∧ curr.smaRsi = some sc ∧
        prev.rsi = some rp ∧ prev.smaRsi = some sp ∧
        ((sig.direction = Dir.long ∧ sc < rc ∧ rp ≤ sp ∧ cc.opn < cc.close) ∨
          (sig.direction = Dir.short ∧ rc < sc ∧ sp ≤ rp ∧ cc.close < cc.opn)) := by
  simp only [signalAt] at h
  split at h
  case h_2 => exact absurd h (by simp)
  rename_i curr prev cc hcurr hprev hcc
  split at h
  case h_2 => exact absurd h (by simp)
  rename_i rc sc rp sp atrv hrc hsc hrp hsp hatr
  refine ⟨curr, prev, cc, hcurr, hprev, hcc, ?_⟩
  split at h
  case isFalse => exact absurd h (by simp)
  rename_i hfilt
  split at h
  case h_1 => exact absurd h (by simp)
  rename_i direction hdir
  have hdircases :
      (direction = Dir.long ∧ sc < rc ∧ rp ≤ sp ∧ cc.opn < cc.close) ∨
      (direction = Dir.short ∧ rc < sc ∧ sp ≤ rp ∧ cc.close < cc.opn) := by
    split at hdir
    · rename_i hc1
      simp only [Bool.and_eq_true, decide_eq_true_eq] at hc1
      exact Or.inl ⟨(Option.some_inj.mp hdir).symm, hc1.1.1, hc1.1.2, hc1.2⟩
    · split at hdir
      · rename_i hc2
        simp only [Bool.and_eq_true, decide_eq_true_eq] at hc2
        exact Or.inr ⟨(Option.some_inj.mp hdir).symm, hc2.1.1, hc2.1.2, hc2.2⟩
      · exact absurd hdir (by simp)
  split at h
  case isFalse => exact absurd h (by simp)
  split at h <;> (
    split at h
    case isTrue => exact absurd h (by simp)
    case isFalse =>
      have hsig := Option.some_inj.mp h
      subst hsig
      refine ⟨rfl, rfl, rc, sc, rp, sp, hrc, hsc, hrp, hsp, ?_⟩
      rcases hdircases with ⟨hd, h1, h2, h3⟩ | ⟨hd, h1, h2, h3⟩
      · exact Or.inl ⟨hd, h1, h2, h3⟩
      · exact Or.inr ⟨hd, h1, h2, h3⟩)

/-- C9: every emitted signal comes from a crossing bar i whose successor
bar confirms the direction with its body: close strictly above open for a
long cross (oscillator crossing above its average between bars i-1 and i),
close strictly below open for a short cross; and the signal's entry price
is bar i+1's close (its entry time bar i+1's timestamp). -/
theorem claimC9_signal_confirmation (df5 : List Bar5) (htf15 htf4h : List HTFBar)
    (windows : List (Nat × Nat)) (lt st : ℚ) (sig : Signal)
    (h : sig ∈ generateTradingSignals df5 htf15 htf4h windows lt st) :
    ∃ i curr prev cc, df5.get? i = some curr ∧ df5.get? (i - 1) = some prev ∧
      df5.get? (i + 1) = some cc ∧ sig.entryPrice = cc.close ∧ sig.entryTs = cc.ts ∧
      ∃ rc sc rp sp, curr.rsi = some rc ∧ curr.smaRsi = some sc ∧
        prev.rsi = some rp ∧ prev.smaRsi = some sp ∧
        ((sig.direction = Dir.long ∧ sc < rc ∧ rp ≤ sp ∧ cc.opn < cc.close) ∨
          (sig.direction = Dir.short ∧ rc < sc ∧ sp ≤ rp ∧ cc.close < cc.opn)) := by
  unfold generateTradingSignals at h
  cases hv : firstValidIdx df5 with
  | none => rw [hv] at h; exact absurd h (by simp)
  | some v =>
    rw [hv] at h
    rw [List.mem_filterMap] at h
    obtain ⟨i, -, hf⟩ := h
    by_cases hguard : max 1 v ≤ i ∧ i + 1 < df5.length
    · rw [if_pos hguard] at hf
      exact ⟨i, signalAt_confirmation hf⟩
    · rw [if_neg hguard] at hf
      exact absurd hf (by simp)

theorem witC9_trend :
    getTrend (witC9htf15.filter (fun b => decide (b.ts ≤ (13000 : Nat)))) = Trend.down := by
  with_unfolding_all decide

theorem witC9_findPivot :
    (match List.find? (fun b => decide (b.ts < (13000 : Nat))) witC9htf15.reverse with
      | none => (([] : List ℚ), ([] : List ℚ))
      | some b => getPivotPoints b.high b.low b.close) = ([90], [90]) := by
  with_unfolding_all decide

theorem witC9_signalAt :
    signalAt witC9df5 witC9htf15 [] TRADING_WINDOWS_UTC 46 60 1 = some witC9sig := by
  rw [signalAt]
  norm_num [witC9df5, witC9_trend, witC9sig, SR_NEARNESS_FACTOR,
    isValidTradingTime, TRADING_WINDOWS_UTC, pivotPointsOfFrame]
  rw [witC9_findPivot]
  norm_num

theorem witC9_gen :
    generateTradingSignals witC9df5 witC9htf15 [] TRADING_WINDOWS_UTC 46 60 = [witC9sig] := by
  rw [generateTradingSignals]
  have hv : firstValidIdx witC9df5 = some 0 := by with_unfolding_all decide
  have hlen : witC9df5.length = 3 := by with_unfolding_all decide
  rw [hv, hlen]
  have hr : List.range 3 = [0, 1, 2] := by decide
  rw [hr]
  simp only [List.filterMap_cons, List.filterMap_nil]
  norm_num [witC9_signalAt]

/-- C9, witness: the concrete long crossing at bar 1 of witC9df5 is
emitted, and the claim theorem yields its crossing/confirmation facts. -/
theorem claimC9_witness :
    witC9sig ∈ generateTradingSignals witC9df5 witC9htf15 [] TRADING_WINDOWS_UTC 46 60 ∧
    ∃ i curr prev cc, witC9df5.get? i = some curr ∧
      witC9df5.get? (i - 1) = some prev ∧ witC9df5.get? (i + 1) = some cc ∧
      witC9sig.entryPrice = cc.close ∧ witC9sig.entryTs = cc.ts ∧
      ∃ rc sc rp sp, curr.rsi = some rc ∧ curr.smaRsi = some sc ∧
        prev.rsi = some rp ∧ prev.smaRsi = some sp ∧
        ((witC9sig.direction = Dir.long ∧ sc < rc ∧ rp ≤ sp ∧ cc.opn < cc.close) ∨
          (witC9sig.direction = Dir.short ∧ rc < sc ∧ sp ≤ rp ∧ cc.close < cc.opn)) := by
  have hmem : witC9sig ∈ generateTradingSignals witC9df5 witC9htf15 []
      TRADING_WINDOWS_UTC 46 60 := by
    rw [witC9_gen]
    exact List.mem_singleton_self _
  exact ⟨hmem, claimC9_signal_confirmation witC9df5 witC9htf15 []
    TRADING_WINDOWS_UTC 46 60 witC9sig hmem⟩

/-! ### Silver simulator: phase characterisation -/

@[simp] theorem closeTrade_trades (st : StateS) (t : TradeS) :
    (closeTrade st t).trades = st.trades ++ [t] := rfl

@[simp] theorem closeTrade_openLong (st : StateS) (t : TradeS) :
    (closeTrade st t).openLongPositions = st.openLongPositions := rfl

@[simp] theorem closeTrade_openShort (st : StateS) (t : TradeS) :
    (closeTrade st t).openShortPositions = st.openShortPositions := rfl

@[simp] theorem closeTrade_opened (st : StateS) (t : TradeS) :
    (closeTrade st t).opened = st.opened := rfl

@[simp] theorem closeTrade_equity (st : StateS) (t : TradeS) :
    (closeTrade st t).equity = st.equity + t.netPnlInr := rfl

@[simp] theorem closeTrade_dailyOpen (st : StateS) (t : TradeS) :
    (closeTrade st t).dailyOpenPrice = st.dailyOpenPrice := rfl

@[simp] theorem closeTrade_currentDay (st : StateS) (t : TradeS) :
    (closeTrade st t).currentDay = st.currentDay := rfl

@[simp] theorem closeTrade_maxConcMae (st : StateS) (t : TradeS) :
    (closeTrade st t).maxConcurrentMae = st.maxConcurrentMae := rfl

theorem foldCloseLongs_spec (cond : PosS → Bool) (mk : PosS → TradeS)
    (upd : PosS → PosS) :
    ∀ (l : List PosS) (acc : StateS),
      (foldCloseLongs cond mk upd l acc).openLongPositions
          = acc.openLongPositions ++ (l.filter (fun p => !cond p)).map upd ∧
      (foldCloseLongs cond mk upd l acc).trades
          = acc.trades ++ (l.filter cond).map mk ∧
      (foldCloseLongs cond mk upd l acc).openShortPositions
          = acc.openShortPositions ∧
      (foldCloseLongs cond mk upd l acc).opened = acc.opened ∧
      (foldCloseLongs cond mk upd l acc).equity
          = acc.equity + ((l.filter cond).map (fun p => (mk p).netPnlInr)).sum ∧
      (foldCloseLongs cond mk upd l acc).dailyOpenPrice = acc.dailyOpenPrice ∧
      (foldCloseLongs cond mk upd l acc).currentDay = acc.currentDay ∧
      (foldCloseLongs cond mk upd l acc).maxConcurrentMae = acc.maxConcurrentMae := by
  intro l
  induction l with
  | nil => intro acc; simp [foldCloseLongs]
  | cons p l ih =>
    intro acc
    have hstep : foldCloseLongs cond mk upd (p :: l) acc
        = foldCloseLongs cond mk upd l
          (if cond p then closeTrade acc (mk p)
           else { acc with openLongPositions := acc.openLongPositions ++ [upd p] }) := by
      simp [foldCloseLongs]
    rw [hstep]
    by_cases hc : cond p
    · obtain ⟨h1, h2, h3, h4, h5, h6, h7, h8⟩ := ih (closeTrade acc (mk p))
      rw [if_pos hc]
      simp only [closeTrade_trades, closeTrade_openLong, closeTrade_openShort,
        closeTrade_opened, closeTrade_equity, closeTrade_dailyOpen,
        closeTrade_currentDay, closeTrade_maxConcMae] at h1 h2 h3 h4 h5 h6 h7 h8
      refine ⟨?_, ?_, h3, h4, ?_, h6, h7, h8⟩
      · rw [h1, List.filter_cons_of_neg (by simp [hc])]
      · rw [h2, List.filter_cons_of_pos hc, List.map_cons, List.append_assoc,
          List.singleton_append]
      · rw [h5, List.filter_cons_of_pos hc, List.map_cons, List.sum_cons, add_assoc]
    · obtain ⟨h1, h2, h3, h4, h5, h6, h7, h8⟩ :=
        ih { acc with openLongPositions := acc.openLongPositions ++ [upd p] }
      rw [if_neg hc]
      refine ⟨?_, ?_, h3, h4, ?_, h6, h7, h8⟩
      · rw [h1, List.filter_cons_of_pos (by simp [hc]), List.map_cons]
        show acc.openLongPositions ++ [upd p]
            ++ List.map upd (List.filter (fun p => !cond p) l)
          = acc.openLongPositions
            ++ (upd p :: List.map upd (List.filter (fun p => !cond p) l))
        simp [List.append_assoc]
      · rw [h2, List.filter_cons_of_neg hc]
      · rw [List.filter_cons_of_neg hc]
        exact h5

theorem foldCloseShorts_spec (cond : PosS → Bool) (mk : PosS → TradeS)
    (upd : PosS → PosS) :
    ∀ (l : List PosS) (acc : StateS),
      (foldCloseShorts cond mk upd l acc).openShortPositions
          = acc.openShortPositions ++ (l.filter (fun p => !cond p)).map upd ∧
      (foldCloseShorts cond mk upd l acc).trades
          = acc.trades ++ (l.filter cond).map mk ∧
      (foldCloseShorts cond mk upd l acc).openLongPositions
          = acc.openLongPositions ∧
      (foldCloseShorts cond mk upd l acc).opened = acc.opened ∧
      (foldCloseShorts cond mk upd l acc).equity
          = acc.equity + ((l.filter cond).map (fun p => (mk p).netPnlInr)).sum ∧
      (foldCloseShorts cond mk upd l acc).dailyOpenPrice = acc.dailyOpenPrice ∧
      (foldCloseShorts cond mk upd l acc).currentDay = acc.currentDay ∧
      (foldCloseShorts cond mk upd l acc).maxConcurrentMae = acc.maxConcurrentMae := by
  intro l
  induction l with
  | nil => intro acc; simp [foldCloseShorts]
  | cons p l ih =>
    intro acc
    have hstep : foldCloseShorts cond mk upd (p :: l) acc
        = foldCloseShorts cond mk upd l
          (if cond p then closeTrade acc (mk p)
           else { acc with openShortPositions := acc.openShortPositions ++ [upd p] }) := by
      simp [foldCloseShorts]
    rw [hstep]
    by_cases hc : cond p
    · obtain ⟨h1, h2, h3, h4, h5, h6, h7, h8⟩ := ih (closeTrade acc (mk p))
      rw [if_pos hc]
      simp only [closeTrade_trades, closeTrade_openLong, closeTrade_openShort,
        closeTrade_opened, closeTrade_equity, closeTrade_dailyOpen,
        closeTrade_currentDay, closeTrade_maxConcMae] at h1 h2 h3 h4 h5 h6 h7 h8
      refine ⟨?_, ?_, h3, h4, ?_, h6, h7, h8⟩
      · rw [h1, List.filter_cons_of_neg (by simp [hc])]
      · rw [h2, List.filter_cons_of_pos hc, List.map_cons, List.append_assoc,
          List.singleton_append]
      · rw [h5, List.filter_cons_of_pos hc, List.map_cons, List.sum_cons, add_assoc]
    · obtain ⟨h1, h2, h3, h4, h5, h6, h7, h8⟩ :=
        ih { acc with openShortPositions := acc.openShortPositions ++ [upd p] }
      rw [if_neg hc]
      refine ⟨?_, ?_, h3, h4, ?_, h6, h7, h8⟩
      · rw [h1, List.filter_cons_of_pos (by simp [hc]), List.map_cons]
        show acc.openShortPositions ++ [upd p]
            ++ List.map upd (List.filter (fun p => !cond p) l)
          = acc.openShortPositions
            ++ (upd p :: List.map upd (List.filter (fun p => !cond p) l))
        simp [List.append_assoc]
      · rw [h2, List.filter_cons_of_neg hc]
      · rw [List.filter_cons_of_neg hc]
        exact h5

theorem ninetyDayLongs_spec (c : CandleS) (st : StateS) :
    (ninetyDayLongs c st).openLongPositions
        = st.openLongPositions.filter (fun p => !(ninetyCloseLongB c p)) ∧
    (ninetyDayLongs c st).trades
        = st.trades
          ++ (st.openLongPositions.filter (ninetyCloseLongB c)).map (mk90LongTrade c) ∧
    (ninetyDayLongs c st).openShortPositions = st.openShortPositions ∧
    (ninetyDayLongs c st).opened = st.opened ∧
    (ninetyDayLongs c st).equity
        = st.equity + ((st.openLongPositions.filter (ninetyCloseLongB c)).map
            (fun p => (mk90LongTrade c p).netPnlInr)).sum ∧
    (ninetyDayLongs c st).dailyOpenPrice = st.dailyOpenPrice ∧
    (ninetyDayLongs c st).currentDay = st.currentDay ∧
    (ninetyDayLongs c st).maxConcurrentMae = st.maxConcurrentMae := by
  have h := foldCloseLongs_spec (ninetyCloseLongB c) (mk90LongTrade c) (fun p => p)
    st.openLongPositions { st with openLongPositions := [] }
  simpa [ninetyDayLongs, List.map_id'] using h

theorem ninetyDayShorts_spec (c : CandleS) (st : StateS) :
    (ninetyDayShorts c st).openShortPositions
        = st.openShortPositions.filter (fun p => !(ninetyCloseShortB c p)) ∧
    (ninetyDayShorts c st).trades
        = st.trades
          ++ (st.openShortPositions.filter (ninetyCloseShortB c)).map (mk90ShortTrade c) ∧
    (ninetyDayShorts c st).openLongPositions = st.openLongPositions ∧
    (ninetyDayShorts c st).opened = st.opened ∧
    (ninetyDayShorts c st).equity
        = st.equity + ((st.openShortPositions.filter (ninetyCloseShortB c)).map
            (fun p => (mk90ShortTrade c p).netPnlInr)).sum ∧
    (ninetyDayShorts c st).dailyOpenPrice = st.dailyOpenPrice ∧
    (ninetyDayShorts c st).currentDay = st.currentDay ∧
    (ninetyDayShorts c st).maxConcurrentMae = st.maxConcurrentMae := by
  have h := foldCloseShorts_spec (ninetyCloseShortB c) (mk90ShortTrade c) (fun p => p)
    st.openShortPositions { st with openShortPositions := [] }
  simpa [ninetyDayShorts, List.map_id'] using h

theorem manageLongs_spec (c : CandleS) (st : StateS) :
    (manageLongs c st).openLongPositions
        = (st.openLongPositions.filter (fun p => !(tpHitLongB c p))).map (maeUpdLong c) ∧
    (manageLongs c st).trades
        = st.trades
          ++ (st.openLongPositions.filter (tpHitLongB c)).map (mkTpLongTrade c) ∧
    (manageLongs c st).openShortPositions = st.openShortPositions ∧
    (manageLongs c st).opened = st.opened ∧
    (manageLongs c st).equity
        = st.equity + ((st.openLongPositions.filter (tpHitLongB c)).map
            (fun p => (mkTpLongTrade c p).netPnlInr)).sum ∧
    (manageLongs c st).dailyOpenPrice = st.dailyOpenPrice ∧
    (manageLongs c st).currentDay = st.currentDay ∧
    (manageLongs c st).maxConcurrentMae = st.maxConcurrentMae := by
  have h := foldCloseLongs_spec (tpHitLongB c) (mkTpLongTrade c) (maeUpdLong c)
    st.openLongPositions { st with openLongPositions := [] }
  simpa [manageLongs] using h

theorem manageShorts_spec (c : CandleS) (st : StateS) :
    (manageShorts c st).openShortPositions
        = (st.openShortPositions.filter (fun p => !(tpHitShortB c p))).map (maeUpdShort c) ∧
    (manageShorts c st).trades
        = st.trades
          ++ (st.openShortPositions.filter (tpHitShortB c)).map (mkTpShortTrade c) ∧
    (manageShorts c st).openLongPositions = st.openLongPositions ∧
    (manageShorts c st).opened = st.opened ∧
    (manageShorts c st).equity
        = st.equity + ((st.openShortPositions.filter (tpHitShortB c)).map
            (fun p => (mkTpShortTrade c p).netPnlInr)).sum ∧
    (manageShorts c st).dailyOpenPrice = st.dailyOpenPrice ∧
    (manageShorts c st).currentDay = st.currentDay ∧
    (manageShorts c st).maxConcurrentMae = st.maxConcurrentMae := by
  have h := foldCloseShorts_spec (tpHitShortB c) (mkTpShortTrade c) (maeUpdShort c)
    st.openShortPositions { st with openShortPositions := [] }
  simpa [manageShorts] using h

/-! ### C5: the 90-day time-limit rule -/

/-- C5: on every candle, the 90-day pass closes exactly those open
positions that have been held for more than 90 days AND whose
mark-to-market net P&L (gross P&L at the candle close plus accumulated
swap, before fees) is strictly above the -5000 loss floor; each such
position is recorded with exit at the candle close and the 90-day-rule
status (with the full fee then deducted from its final net P&L), while
every position failing the condition — in particular one that is deep
underwater beyond the floor — is left open by the rule, in order.  So a
position held 91 days at -3000 closes, and at -6000 stays open. -/
theorem claimC5_time_limit_rule (c : CandleS) (st : StateS) :
    ((ninetyDayLongs c st).openLongPositions
        = st.openLongPositions.filter
            (fun p => !(decide (90 < daysHeld p.entryTime c.ts) &&
              decide (-5000 < floatLong c p))) ∧
      (ninetyDayLongs c st).trades
        = st.trades ++ (st.openLongPositions.filter
            (fun p => decide (90 < daysHeld p.entryTime c.ts) &&
              decide (-5000 < floatLong c p))).map (mk90LongTrade c) ∧
      ∀ p : PosS, (mk90LongTrade c p).exitPrice = c.close ∧
        (mk90LongTrade c p).exitTime = some c.ts ∧
        (mk90LongTrade c p).status = Status.closed90DayRule ∧
        (mk90LongTrade c p).netPnlInr = floatLong c p - FEE_INR_PER_TRADE) ∧
    ((ninetyDayShorts c st).openShortPositions
        = st.openShortPositions.filter
            (fun p => !(decide (90 < daysHeld p.entryTime c.ts) &&
              decide (-5000 < floatShort c p))) ∧
      (ninetyDayShorts c st).trades
        = st.trades ++ (st.openShortPositions.filter
            (fun p => decide (90 < daysHeld p.entryTime c.ts) &&
              decide (-5000 < floatShort c p))).map (mk90ShortTrade c) ∧
      ∀ p : PosS, (mk90ShortTrade c p).exitPrice = c.close ∧
        (mk90ShortTrade c p).exitTime = some c.ts ∧
        (mk90ShortTrade c p).status = Status.closed90DayRule ∧
        (mk90ShortTrade c p).netPnlInr = floatShort c p - FEE_INR_PER_TRADE) := by
  obtain ⟨hl1, hl2, -, -, -, -, -, -⟩ := ninetyDayLongs_spec c st
  obtain ⟨hs1, hs2, -, -, -, -, -, -⟩ := ninetyDayShorts_spec c st
  refine ⟨⟨?_, ?_, ?_⟩, ⟨?_, ?_, ?_⟩⟩
  · simpa [ninetyCloseLongB] using hl1
  · simpa [ninetyCloseLongB] using hl2
  · intro p
    refine ⟨rfl, rfl, rfl, ?_⟩
    simp [mk90LongTrade, floatLong]
  · simpa [ninetyCloseShortB] using hs1
  · simpa [ninetyCloseShortB] using hs2
  · intro p
    refine ⟨rfl, rfl, rfl, ?_⟩
    simp [mk90ShortTrade, floatShort]

/-! ### Silver simulator: loop invariants -/

theorem length_filter_partition {α : Type} (p : α → Bool) (l : List α) :
    (l.filter p).length + (l.filter (fun a => !p a)).length = l.length := by
  induction l with
  | nil => rfl
  | cons a l ih =>
    by_cases h : p a <;> simp only [List.filter_cons, h] <;> simp <;> omega

theorem closedNetSum_append (a b : List TradeS) :
    closedNetSum (a ++ b) = closedNetSum a + closedNetSum b := by
  simp [closedNetSum, List.filter_append]

theorem closedNetSum_map_closed (mk : PosS → TradeS) (l : List PosS)
    (h : ∀ p, (mk p).status ≠ Status.stillOpen) :
    closedNetSum (l.map mk) = (l.map (fun p => (mk p).netPnlInr)).sum := by
  unfold closedNetSum
  rw [List.filter_eq_self.mpr]
  · rw [List.map_map]
    rfl
  · intro a ha
    obtain ⟨p, -, rfl⟩ := List.mem_map.mp ha
    simpa using h p

theorem closedNetSum_stillOpen (l : List TradeS)
    (h : ∀ t ∈ l, t.status = Status.stillOpen) : closedNetSum l = 0 := by
  unfold closedNetSum
  rw [List.filter_eq_nil_iff.mpr]
  · rfl
  · intro a ha
    simp [h a ha]

theorem dayUpdate_fields (c : CandleS) (st : StateS) :
    (dayUpdate c st).trades = st.trades ∧
    (dayUpdate c st).openLongPositions = st.openLongPositions ∧
    (dayUpdate c st).openShortPositions = st.openShortPositions ∧
    (dayUpdate c st).equity = st.equity ∧
    (dayUpdate c st).opened = st.opened ∧
    (dayUpdate c st).maxDrawdown = st.maxDrawdown ∧
    (dayUpdate c st).minEquity = st.minEquity := by
  unfold dayUpdate
  split <;> exact ⟨rfl, rfl, rfl, rfl, rfl, rfl, rfl⟩

theorem concMaePhase_fields (c : CandleS) (st : StateS) :
    (concMaePhase c st).trades = st.trades ∧
    (concMaePhase c st).openLongPositions = st.openLongPositions ∧
    (concMaePhase c st).openShortPositions = st.openShortPositions ∧
    (concMaePhase c st).equity = st.equity ∧
    (concMaePhase c st).opened = st.opened ∧
    (concMaePhase c st).maxDrawdown = st.maxDrawdown ∧
    (concMaePhase c st).minEquity = st.minEquity :=
  ⟨rfl, rfl, rfl, rfl, rfl, rfl, rfl⟩

theorem newShortPos_tp (c : CandleS) (dOpen target : ℚ) (idNum : Nat) :
    (newShortPos c dOpen target idNum).tpPrice = target + 1 := by
  show target + SHORT_ENTRY_PRICE_OFFSET_FROM_LONG - SHORT_TAKE_PROFIT_PRICE_OFFSET
      = target + 1
  simp only [SHORT_ENTRY_PRICE_OFFSET_FROM_LONG, SHORT_TAKE_PROFIT_PRICE_OFFSET]
  ring

theorem entryOpen_spec (c : CandleS) (dOpen : ℚ) (st : StateS) :
    (entryOpen c dOpen st = (st, none) ∧
      ¬(openCount st < MAX_CONCURRENT_TRADES ∧ c.low ≤ nextEntryTarget dOpen st)) ∨
    ((openCount st < MAX_CONCURRENT_TRADES ∧ c.low ≤ nextEntryTarget dOpen st) ∧
      entryOpen c dOpen st =
        ({ st with
            openLongPositions := st.openLongPositions
              ++ [newLongPos c dOpen (nextEntryTarget dOpen st) st.opened]
            openShortPositions := st.openShortPositions
              ++ [newShortPos c dOpen (nextEntryTarget dOpen st) (st.opened + 1)]
            opened := st.opened + 2 },
          some (newLongPos c dOpen (nextEntryTarget dOpen st) st.opened,
            newShortPos c dOpen (nextEntryTarget dOpen st) (st.opened + 1)))) := by
  unfold entryOpen openCount
  by_cases hcond : st.openLongPositions.length + st.openShortPositions.length
      < MAX_CONCURRENT_TRADES ∧ c.low ≤ nextEntryTarget dOpen st
  · right
    exact ⟨hcond, by rw [if_pos hcond]⟩
  · left
    exact ⟨by rw [if_neg hcond], hcond⟩

theorem mk90LongTrade_closed (c : CandleS) (p : PosS) :
    (mk90LongTrade c p).status ≠ Status.stillOpen := by simp [mk90LongTrade]

theorem mk90ShortTrade_closed (c : CandleS) (p : PosS) :
    (mk90ShortTrade c p).status ≠ Status.stillOpen := by simp [mk90ShortTrade]

theorem mkTpLongTrade_closed (c : CandleS) (p : PosS) :
    (mkTpLongTrade c p).status ≠ Status.stillOpen := by simp [mkTpLongTrade]

theorem mkTpShortTrade_closed (c : CandleS) (p : PosS) :
    (mkTpShortTrade c p).status ≠ Status.stillOpen := by simp [mkTpShortTrade]

theorem mkSameCandleLongTrade_closed (c : CandleS) (p : PosS) :
    (mkSameCandleLongTrade c p).status ≠ Status.stillOpen := by
  simp [mkSameCandleLongTrade]

theorem mkSameCandleShortTrade_closed (c : CandleS) (p : PosS) :
    (mkSameCandleShortTrade c p).status ≠ Status.stillOpen := by
  simp [mkSameCandleShortTrade]

theorem silverLoopInv_phase {st st' : StateS} {l : List PosS} {cond : PosS → Bool}
    {mk : PosS → TradeS}
    (hmkstatus : ∀ p, (mk p).status ≠ Status.stillOpen)
    (hTrades : st'.trades = st.trades ++ (l.filter cond).map mk)
    (hEquity : st'.equity
      = st.equity + ((l.filter cond).map (fun p => (mk p).netPnlInr)).sum)
    (hOpened : st'.opened = st.opened)
    (hLen : st'.openLongPositions.length + st'.openShortPositions.length
        + (l.filter cond).length
      = st.openLongPositions.length + st.openShortPositions.length)
    (h : silverLoopInv st) : silverLoopInv st' := by
  obtain ⟨hcount, heq, hstat⟩ := h
  refine ⟨?_, ?_, ?_⟩
  · rw [hTrades, hOpened, List.length_append, List.length_map]
    omega
  · rw [hEquity, heq, hTrades, closedNetSum_append, closedNetSum_map_closed mk _ hmkstatus]
    ring
  · rw [hTrades]
    intro t ht
    rcases List.mem_append.mp ht with hmem | hmem
    · exact hstat t hmem
    · obtain ⟨p, -, rfl⟩ := List.mem_map.mp hmem
      exact hmkstatus p

theorem ninetyDayLongs_inv (c : CandleS) {st : StateS} (h : silverLoopInv st) :
    silverLoopInv (ninetyDayLongs c st) := by
  obtain ⟨h1, h2, h3, h4, h5, -, -, -⟩ := ninetyDayLongs_spec c st
  refine silverLoopInv_phase (mk90LongTrade_closed c) h2 h5 h4 ?_ h
  rw [h1, h3]
  have hp := length_filter_partition (ninetyCloseLongB c) st.openLongPositions
  omega

theorem ninetyDayShorts_inv (c : CandleS) {st : StateS} (h : silverLoopInv st) :
    silverLoopInv (ninetyDayShorts c st) := by
  obtain ⟨h1, h2, h3, h4, h5, -, -, -⟩ := ninetyDayShorts_spec c st
  refine silverLoopInv_phase (mk90ShortTrade_closed c) h2 h5 h4 ?_ h
  rw [h1, h3]
  have hp := length_filter_partition (ninetyCloseShortB c) st.openShortPositions
  omega

theorem manageLongs_inv (c : CandleS) {st : StateS} (h : silverLoopInv st) :
    silverLoopInv (manageLongs c st) := by
  obtain ⟨h1, h2, h3, h4, h5, -, -, -⟩ := manageLongs_spec c st
  refine silverLoopInv_phase (mkTpLongTrade_closed c) h2 h5 h4 ?_ h
  rw [h1, h3, List.length_map]
  have hp := length_filter_partition (tpHitLongB c) st.openLongPositions
  omega

theorem manageShorts_inv (c : CandleS) {st : StateS} (h : silverLoopInv st) :
    silverLoopInv (manageShorts c st) := by
  obtain ⟨h1, h2, h3, h4, h5, -, -, -⟩ := manageShorts_spec c st
  refine silverLoopInv_phase (mkTpShortTrade_closed c) h2 h5 h4 ?_ h
  rw [h1, h3, List.length_map]
  have hp := length_filter_partition (tpHitShortB c) st.openShortPositions
  omega

theorem dayUpdate_inv (c : CandleS) {st : StateS} (h : silverLoopInv st) :
    silverLoopInv (dayUpdate c st) := by
  obtain ⟨f1, f2, f3, f4, f5, -, -⟩ := dayUpdate_fields c st
  obtain ⟨hc, he, hs⟩ := h
  exact ⟨by rw [f1, f2, f3, f5]; exact hc, by rw [f4, f1]; exact he,
    by rw [f1]; exact hs⟩

theorem concMaePhase_inv (c : CandleS) {st : StateS} (h : silverLoopInv st) :
    silverLoopInv (concMaePhase c st) := by
  obtain ⟨f1, f2, f3, f4, f5, -, -⟩ := concMaePhase_fields c st
  obtain ⟨hc, he, hs⟩ := h
  exact ⟨by rw [f1, f2, f3, f5]; exact hc, by rw [f4, f1]; exact he,
    by rw [f1]; exact hs⟩

theorem silverPreEntry_inv (c : CandleS) {st : StateS} (h : silverLoopInv st) :
    silverLoopInv (silverPreEntry c st) :=
  concMaePhase_inv c (manageShorts_inv c (manageLongs_inv c
    (ninetyDayShorts_inv c (ninetyDayLongs_inv c h))))

theorem silverLoopInv_closeLong {st : StateS} {p : PosS} {t : TradeS}
    (hp : p ∈ st.openLongPositions) (ht : t.status ≠ Status.stillOpen)
    (h : silverLoopInv st) :
    silverLoopInv
      (closeTrade { st with openLongPositions := st.openLongPositions.erase p } t) := by
  obtain ⟨hc, he, hs⟩ := h
  have hpos : 0 < st.openLongPositions.length := List.length_pos_of_mem hp
  have herase : (st.openLongPositions.erase p).length
      = st.openLongPositions.length - 1 := List.length_erase_of_mem hp
  have hsingle : closedNetSum [t] = t.netPnlInr := by simp [closedNetSum, ht]
  refine ⟨?_, ?_, ?_⟩
  · simp only [closeTrade_trades, closeTrade_openLong, closeTrade_openShort,
      closeTrade_opened, List.length_append, List.length_singleton, herase]
    omega
  · simp only [closeTrade_equity, closeTrade_trades, closedNetSum_append, hsingle]
    rw [he]
    ring
  · simp only [closeTrade_trades]
    intro t' ht'
    rcases List.mem_append.mp ht' with hmem | hmem
    · exact hs t' hmem
    · rw [List.mem_singleton.mp hmem]
      exact ht

theorem silverLoopInv_closeShort {st : StateS} {p : PosS} {t : TradeS}
    (hp : p ∈ st.openShortPositions) (ht : t.status ≠ Status.stillOpen)
    (h : silverLoopInv st) :
    silverLoopInv
      (closeTrade { st with openShortPositions := st.openShortPositions.erase p } t) := by
  obtain ⟨hc, he, hs⟩ := h
  have hpos : 0 < st.openShortPositions.length := List.length_pos_of_mem hp
  have herase : (st.openShortPositions.erase p).length
      = st.openShortPositions.length - 1 := List.length_erase_of_mem hp
  have hsingle : closedNetSum [t] = t.netPnlInr := by simp [closedNetSum, ht]
  refine ⟨?_, ?_, ?_⟩
  · simp only [closeTrade_trades, closeTrade_openLong, closeTrade_openShort,
      closeTrade_opened, List.length_append, List.length_singleton, herase]
    omega
  · simp only [closeTrade_equity, closeTrade_trades, closedNetSum_append, hsingle]
    rw [he]
    ring
  · simp only [closeTrade_trades]
    intro t' ht'
    rcases List.mem_append.mp ht' with hmem | hmem
    · exact hs t' hmem
    · rw [List.mem_singleton.mp hmem]
      exact ht

theorem sameCandleChecks_inv {st : StateS} {c : CandleS} {lp sp : PosS}
    (hlp : lp ∈ st.openLongPositions) (h : silverLoopInv st) :
    silverLoopInv (sameCandleChecks c st (some (lp, sp))) := by
  unfold sameCandleChecks
  dsimp only
  by_cases hlpTp : lp.tpPrice ≤ c.high
  · rw [if_pos hlpTp]
    have h1 := silverLoopInv_closeLong hlp (mkSameCandleLongTrade_closed c lp) h
    split
    · rename_i hcond
      exact silverLoopInv_closeShort (List.elem_iff.mp hcond.1)
        (mkSameCandleShortTrade_closed c sp) h1
    · exact h1
  · rw [if_neg hlpTp]
    split
    · rename_i hcond
      exact silverLoopInv_closeShort (List.elem_iff.mp hcond.1)
        (mkSameCandleShortTrade_closed c sp) h
    · exact h

theorem silverStep_inv {st : StateS} (c : CandleS) (h : silverLoopInv st) :
    silverLoopInv (silverStep st c) := by
  unfold silverStep
  dsimp only
  have h0 : silverLoopInv (dayUpdate c st) := dayUpdate_inv c h
  cases hd : (dayUpdate c st).dailyOpenPrice with
  | none =>
    exact h0
  | some dOpen =>
    dsimp only
    have h5 : silverLoopInv (silverPreEntry c (dayUpdate c st)) := silverPreEntry_inv c h0
    rcases entryOpen_spec c dOpen (silverPreEntry c (dayUpdate c st)) with
      ⟨heq, -⟩ | ⟨-, heq⟩
    · rw [heq]
      exact h5
    · rw [heq]
      have hO : silverLoopInv
          { silverPreEntry c (dayUpdate c st) with
            openLongPositions := (silverPreEntry c (dayUpdate c st)).openLongPositions
              ++ [newLongPos c dOpen
                (nextEntryTarget dOpen (silverPreEntry c (dayUpdate c st)))
                (silverPreEntry c (dayUpdate c st)).opened]
            openShortPositions := (silverPreEntry c (dayUpdate c st)).openShortPositions
              ++ [newShortPos c dOpen
                (nextEntryTarget dOpen (silverPreEntry c (dayUpdate c st)))
                ((silverPreEntry c (dayUpdate c st)).opened + 1)]
            opened := (silverPreEntry c (dayUpdate c st)).opened + 2 } := by
        obtain ⟨hc5, he5, hs5⟩ := h5
        refine ⟨?_, he5, hs5⟩
        simp only [List.length_append, List.length_singleton]
        omega
      exact sameCandleChecks_inv
        (List.mem_append.mpr (Or.inr (List.mem_singleton_self _))) hO

theorem silverRun_loop_inv (df : List CandleS) :
    silverLoopInv (List.foldl silverStep initStateS df) := by
  have hinit : silverLoopInv initStateS := by
    refine ⟨rfl, ?_, ?_⟩
    · simp [initStateS, closedNetSum]
    · intro t ht
      simp [initStateS] at ht
  suffices hgen : ∀ (l : List CandleS) (s : StateS),
      silverLoopInv s → silverLoopInv (List.foldl silverStep s l) from
    hgen df initStateS hinit
  intro l
  induction l with
  | nil => intro s hs; exact hs
  | cons a l ih =>
    intro s hs
    rw [List.foldl_cons]
    exact ih (silverStep s a) (silverStep_inv a hs)

theorem endOfData_equity (df : List CandleS) (st : StateS) :
    (endOfData df st).equity = st.equity := by
  unfold endOfData
  cases df.getLast? <;> rfl

theorem endOfData_some {df : List CandleS} {last : CandleS} (st : StateS)
    (hl : df.getLast? = some last) :
    (endOfData df st).trades = st.trades
      ++ st.openLongPositions.map (mkStillOpenLongTrade last)
      ++ st.openShortPositions.map (mkStillOpenShortTrade last) := by
  unfold endOfData
  rw [hl]

/-- C2 (amended): the final equity of run_backtest equals the starting
balance plus the sum of net P&L over the CLOSED records of the returned
ledger; the net P&L of STILL_OPEN end-of-data records is never added to
equity. -/
theorem claimC2_equity_amended (df : List CandleS) :
    (runBacktestSilver df).equity
      = STARTING_BALANCE_INR + closedNetSum (runBacktestSilver df).trades := by
  obtain ⟨-, he, hs⟩ := silverRun_loop_inv df
  unfold runBacktestSilver
  rw [endOfData_equity]
  cases hl : df.getLast? with
  | none =>
    unfold endOfData
    rw [hl]
    exact he
  | some last =>
    rw [endOfData_some _ hl]
    have hz1 : closedNetSum
        ((List.foldl silverStep initStateS df).openLongPositions.map
          (mkStillOpenLongTrade last)) = 0 := by
      refine closedNetSum_stillOpen _ ?_
      intro t ht
      obtain ⟨p, -, rfl⟩ := List.mem_map.mp ht
      rfl
    have hz2 : closedNetSum
        ((List.foldl silverStep initStateS df).openShortPositions.map
          (mkStillOpenShortTrade last)) = 0 := by
      refine closedNetSum_stillOpen _ ?_
      intro t ht
      obtain ⟨p, -, rfl⟩ := List.mem_map.mp ht
      rfl
    rw [closedNetSum_append, closedNetSum_append, hz1, hz2, he]
    ring

/-- C2 counterexample: on the one-candle frame witSilverDf the final
equity differs from the starting balance plus the sum of net P&L over
EVERY record of the ledger, because the still-open long's net P&L is in
the ledger but was never added to equity. -/
theorem claimC2_counterexample :
    (runBacktestSilver witSilverDf).equity
      ≠ STARTING_BALANCE_INR
        + (((runBacktestSilver witSilverDf).trades).map
            (fun t => t.netPnlInr)).sum := by
  with_unfolding_all decide

/-- C1 (amended, silver simulator): every position opened during
run_backtest is accounted for exactly once in the final ledger (the ledger
has exactly as many records as positions were ever opened), and every
STILL_OPEN record carries no fee and exits at the last candle's close. -/
theorem claimC1_ledger_completeness_amended (df : List CandleS) :
    (runBacktestSilver df).trades.length
        = (List.foldl silverStep initStateS df).opened ∧
    ∀ t ∈ (runBacktestSilver df).trades, t.status = Status.stillOpen →
      t.feesInr = 0 ∧ ∃ last, df.getLast? = some last ∧
        t.exitPrice = last.close := by
  obtain ⟨hc, -, hs⟩ := silverRun_loop_inv df
  cases df with
  | nil =>
    constructor
    · rfl
    · intro t ht
      simp [runBacktestSilver, endOfData, initStateS] at ht
  | cons a l =>
    obtain ⟨last, hl⟩ : ∃ last, (a :: l).getLast? = some last := by
      cases hgl : (a :: l).getLast? with
      | some x => exact ⟨x, rfl⟩
      | none => exact absurd hgl (by simp)
    unfold runBacktestSilver
    rw [endOfData_some _ hl]
    constructor
    · simp only [List.length_append, List.length_map]
      omega
    · intro t ht hstatus
      rcases List.mem_append.mp ht with ht1 | ht1
      · rcases List.mem_append.mp ht1 with ht2 | ht2
        · exact absurd hstatus (hs t ht2)
        · obtain ⟨p, -, rfl⟩ := List.mem_map.mp ht2
          exact ⟨rfl, last, hl, rfl⟩
      · obtain ⟨p, -, rfl⟩ := List.mem_map.mp ht1
        exact ⟨rfl, last, hl, rfl⟩

theorem claimC1_witness :
    ((runBacktestSilver witSilverDf).trades.getD 1 dummyTradeS).feesInr = 0 ∧
    ∃ last, witSilverDf.getLast? = some last ∧
      ((runBacktestSilver witSilverDf).trades.getD 1 dummyTradeS).exitPrice
        = last.close :=
  (claimC1_ledger_completeness_amended witSilverDf).2 _
    (by with_unfolding_all decide) (by with_unfolding_all decide)

/-- C1 counterexample (crossover simulator): on cexC1df the signal
cexC1sig is accepted and opens a position, but no exit is ever found and
execute_backtest returns an empty ledger: the opened position appears in
no record at all, still-open or otherwise. -/
theorem claimC1_counterexample :
    acceptedPositions cexC1df (1 / 100) [cexC1sig] = 1 ∧
    (executeBacktest cexC1df [cexC1sig] 100000 1 (1 / 100)).1 = [] := by
  with_unfolding_all decide

theorem ninetyDayLongs_count (c : CandleS) (st : StateS) :
    openCount (ninetyDayLongs c st) ≤ openCount st := by
  obtain ⟨h1, -, h3, -⟩ := ninetyDayLongs_spec c st
  rw [openCount, openCount, h1, h3]
  have := List.length_filter_le (fun p => !(ninetyCloseLongB c p)) st.openLongPositions
  omega

theorem ninetyDayShorts_count (c : CandleS) (st : StateS) :
    openCount (ninetyDayShorts c st) ≤ openCount st := by
  obtain ⟨h1, -, h3, -⟩ := ninetyDayShorts_spec c st
  rw [openCount, openCount, h1, h3]
  have := List.length_filter_le (fun p => !(ninetyCloseShortB c p)) st.openShortPositions
  omega

theorem manageLongs_count (c : CandleS) (st : StateS) :
    openCount (manageLongs c st) ≤ openCount st := by
  obtain ⟨h1, -, h3, -⟩ := manageLongs_spec c st
  rw [openCount, openCount, h1, h3, List.length_map]
  have := List.length_filter_le (fun p => !(tpHitLongB c p)) st.openLongPositions
  omega

theorem manageShorts_count (c : CandleS) (st : StateS) :
    openCount (manageShorts c st) ≤ openCount st := by
  obtain ⟨h1, -, h3, -⟩ := manageShorts_spec c st
  rw [openCount, openCount, h1, h3, List.length_map]
  have := List.length_filter_le (fun p => !(tpHitShortB c p)) st.openShortPositions
  omega

theorem silverPreEntry_count (c : CandleS) (st : StateS) :
    openCount (silverPreEntry c st) ≤ openCount st := by
  unfold silverPreEntry
  have hmae : openCount (concMaePhase c
      (manageShorts c (manageLongs c (ninetyDayShorts c (ninetyDayLongs c st)))))
      = openCount (manageShorts c (manageLongs c (ninetyDayShorts c (ninetyDayLongs c st)))) :=
    rfl
  rw [hmae]
  exact le_trans (manageShorts_count c _)
    (le_trans (manageLongs_count c _)
      (le_trans (ninetyDayShorts_count c _) (ninetyDayLongs_count c st)))

theorem dayUpdate_count (c : CandleS) (st : StateS) :
    openCount (dayUpdate c st) = openCount st := by
  rw [openCount, openCount, (dayUpdate_fields c st).2.1, (dayUpdate_fields c st).2.2.1]

theorem sameCandleChecks_count {st : StateS} {c : CandleS} {lp sp : PosS}
    (hsp : sp ∈ st.openShortPositions) (hlow : c.low ≤ sp.tpPrice) :
    openCount (sameCandleChecks c st (some (lp, sp))) + 1 ≤ openCount st := by
  have herase2 : (st.openShortPositions.erase sp).length
      = st.openShortPositions.length - 1 := List.length_erase_of_mem hsp
  have hpos : 0 < st.openShortPositions.length := List.length_pos_of_mem hsp
  have herase1 : (st.openLongPositions.erase lp).length
      ≤ st.openLongPositions.length := (List.erase_sublist lp _).length_le
  unfold sameCandleChecks
  dsimp only
  by_cases hlp : lp.tpPrice ≤ c.high
  · rw [if_pos hlp]
    split
    · rename_i hcond
      simp only [openCount, closeTrade_openLong, closeTrade_openShort]
      omega
    · rename_i hcond
      refine absurd ⟨?_, hlow⟩ hcond
      exact List.elem_iff.mpr hsp
  · rw [if_neg hlp]
    split
    · rename_i hcond
      simp only [openCount, closeTrade_openLong, closeTrade_openShort]
      omega
    · rename_i hcond
      exact absurd ⟨List.elem_iff.mpr hsp, hlow⟩ hcond

theorem entryRecord_count (c : CandleS) (dOpen : ℚ) (st5 : StateS)
    (hlt : openCount st5 < MAX_CONCURRENT_TRADES)
    (hle : c.low ≤ nextEntryTarget dOpen st5) :
    openCount (sameCandleChecks c
      { st5 with
        openLongPositions := st5.openLongPositions
          ++ [newLongPos c dOpen (nextEntryTarget dOpen st5) st5.opened]
        openShortPositions := st5.openShortPositions
          ++ [newShortPos c dOpen (nextEntryTarget dOpen st5) (st5.opened + 1)]
        opened := st5.opened + 2 }
      (some (newLongPos c dOpen (nextEntryTarget dOpen st5) st5.opened,
        newShortPos c dOpen (nextEntryTarget dOpen st5) (st5.opened + 1))))
      ≤ MAX_CONCURRENT_TRADES := by
  have hsp : newShortPos c dOpen (nextEntryTarget dOpen st5) (st5.opened + 1)
      ∈ ({ st5 with
        openLongPositions := st5.openLongPositions
          ++ [newLongPos c dOpen (nextEntryTarget dOpen st5) st5.opened]
        openShortPositions := st5.openShortPositions
          ++ [newShortPos c dOpen (nextEntryTarget dOpen st5) (st5.opened + 1)]
        opened := st5.opened + 2 } : StateS).openShortPositions :=
    List.mem_append.mpr (Or.inr (List.mem_singleton_self _))
  have hlow : c.low ≤ (newShortPos c dOpen (nextEntryTarget dOpen st5)
      (st5.opened + 1)).tpPrice := by
    rw [newShortPos_tp]
    linarith
  have hkey := @sameCandleChecks_count
    { st5 with
      openLongPositions := st5.openLongPositions
        ++ [newLongPos c dOpen (nextEntryTarget dOpen st5) st5.opened]
      openShortPositions := st5.openShortPositions
        ++ [newShortPos c dOpen (nextEntryTarget dOpen st5) (st5.opened + 1)]
      opened := st5.opened + 2 }
    c
    (newLongPos c dOpen (nextEntryTarget dOpen st5) st5.opened)
    (newShortPos c dOpen (nextEntryTarget dOpen st5) (st5.opened + 1))
    hsp hlow
  have hcount : openCount
      ({ st5 with
        openLongPositions := st5.openLongPositions
          ++ [newLongPos c dOpen (nextEntryTarget dOpen st5) st5.opened]
        openShortPositions := st5.openShortPositions
          ++ [newShortPos c dOpen (nextEntryTarget dOpen st5) (st5.opened + 1)]
        opened := st5.opened + 2 } : StateS)
      = openCount st5 + 2 := by
    simp only [openCount, List.length_append, List.length_singleton]
    omega
  omega

theorem silverStep_count {st : StateS} (c : CandleS)
    (h : openCount st ≤ MAX_CONCURRENT_TRADES) :
    openCount (silverStep st c) ≤ MAX_CONCURRENT_TRADES := by
  unfold silverStep
  dsimp only
  have h0 : openCount (dayUpdate c st) = openCount st := dayUpdate_count c st
  cases hd : (dayUpdate c st).dailyOpenPrice with
  | none =>
    show openCount (dayUpdate c st) ≤ MAX_CONCURRENT_TRADES
    omega
  | some dOpen =>
    dsimp only
    have h5 : openCount (silverPreEntry c (dayUpdate c st)) ≤ openCount st := by
      have := silverPreEntry_count c (dayUpdate c st)
      omega
    rcases entryOpen_spec c dOpen (silverPreEntry c (dayUpdate c st)) with
      ⟨heq, -⟩ | ⟨hcond, heq⟩
    · rw [heq]
      show openCount (silverPreEntry c (dayUpdate c st)) ≤ MAX_CONCURRENT_TRADES
      omega
    · rw [heq]
      exact entryRecord_count c dOpen (silverPreEntry c (dayUpdate c st)) hcond.1 hcond.2

theorem silverMidEntry_count {st : StateS} (c : CandleS)
    (h : openCount st ≤ MAX_CONCURRENT_TRADES) :
    openCount (silverMidEntry c st) ≤ MAX_CONCURRENT_TRADES + 1 := by
  unfold silverMidEntry
  dsimp only
  have h0 : openCount (dayUpdate c st) = openCount st := dayUpdate_count c st
  cases hd : (dayUpdate c st).dailyOpenPrice with
  | none =>
    show openCount (dayUpdate c st) ≤ MAX_CONCURRENT_TRADES + 1
    omega
  | some dOpen =>
    dsimp only
    have h5 : openCount (silverPreEntry c (dayUpdate c st)) ≤ openCount st := by
      have := silverPreEntry_count c (dayUpdate c st)
      omega
    rcases entryOpen_spec c dOpen (silverPreEntry c (dayUpdate c st)) with
      ⟨heq, -⟩ | ⟨hcond, heq⟩
    · rw [heq]
      show openCount (silverPreEntry c (dayUpdate c st)) ≤ MAX_CONCURRENT_TRADES + 1
      omega
    · rw [heq]
      show openCount
          { silverPreEntry c (dayUpdate c st) with
            openLongPositions := (silverPreEntry c (dayUpdate c st)).openLongPositions
              ++ [newLongPos c dOpen
                (nextEntryTarget dOpen (silverPreEntry c (dayUpdate c st)))
                (silverPreEntry c (dayUpdate c st)).opened]
            openShortPositions := (silverPreEntry c (dayUpdate c st)).openShortPositions
              ++ [newShortPos c dOpen
                (nextEntryTarget dOpen (silverPreEntry c (dayUpdate c st)))
                ((silverPreEntry c (dayUpdate c st)).opened + 1)]
            opened := (silverPreEntry c (dayUpdate c st)).opened + 2 }
          ≤ MAX_CONCURRENT_TRADES + 1
      have hlt := hcond.1
      rw [openCount] at hlt
      simp only [openCount, List.length_append, List.length_singleton]
      rw [openCount] at h5
      omega

theorem scanl_forall {P : StateS → Prop} (f : StateS → CandleS → StateS)
    (hstep : ∀ s c, P s → P (f s c)) :
    ∀ (l : List CandleS) (b : StateS), P b → ∀ s ∈ List.scanl f b l, P s := by
  intro l
  induction l with
  | nil =>
    intro b hb s hs
    rw [List.scanl_nil, List.mem_singleton] at hs
    exact hs ▸ hb
  | cons a l ih =>
    intro b hb s hs
    rw [List.scanl_cons, List.singleton_append, List.mem_cons] at hs
    rcases hs with rfl | hs
    · exact hb
    · exact ih (f b a) (hstep b a hb) s hs

/-- C3 (amended): at every candle boundary of run_backtest the number of
simultaneously open positions is at most the cap MAX_CONCURRENT_TRADES;
within a candle, immediately after the entry step has opened a long and
its paired short, the count can exceed the cap but never by more than
one. -/
theorem claimC3_concurrency_cap_amended (df : List CandleS) :
    (∀ s ∈ List.scanl silverStep initStateS df,
      openCount s ≤ MAX_CONCURRENT_TRADES) ∧
    (∀ s ∈ List.scanl silverStep initStateS df, ∀ c : CandleS,
      openCount (silverMidEntry c s) ≤ MAX_CONCURRENT_TRADES + 1) := by
  have hb : openCount initStateS ≤ MAX_CONCURRENT_TRADES := Nat.zero_le _
  have hall := @scanl_forall (fun s => openCount s ≤ MAX_CONCURRENT_TRADES)
    silverStep (fun s c hs => silverStep_count c hs) df initStateS hb
  exact ⟨hall, fun s hmem c => silverMidEntry_count c (hall s hmem)⟩

theorem claimC3_witness :
    openCount initStateS ≤ MAX_CONCURRENT_TRADES ∧
    openCount (silverMidEntry witC3candle initStateS) ≤ MAX_CONCURRENT_TRADES + 1 :=
  ⟨(claimC3_concurrency_cap_amended []).1 initStateS (by simp [List.scanl_nil]),
   (claimC3_concurrency_cap_amended []).2 initStateS (by simp [List.scanl_nil])
     witC3candle⟩

/-- C3 counterexample: after the 29 ladder candles of cexC3df29 exactly 29
positions are open, and on the next candle the entry step opens a 30th long
with its paired short before any same-candle check runs, so the
within-candle state silverMidEntry momentarily holds 31 open positions,
exceeding the cap of 30. -/
theorem claimC3_counterexample :
    MAX_CONCURRENT_TRADES <
      openCount (silverMidEntry cexC3c30
        (List.foldl silverStep initStateS cexC3df29)) := by
  with_unfolding_all decide

theorem closeUpdate_ddInv {st : StateS} (net : ℚ) (h : ddInv st) :
    ddInv (closeUpdate st net) := by
  obtain ⟨h1, h2⟩ := h
  unfold closeUpdate ddInv
  dsimp only
  constructor
  · exact le_max_of_le_left h1
  · intro hmin
    rw [le_min_iff] at hmin
    refine max_le (h2 hmin.1) ?_
    split
    · rename_i hc
      rw [div_le_one hc.1]
      linarith [hmin.2]
    · norm_num

theorem closeTrade_ddInv {st : StateS} (t : TradeS) (h : ddInv st) :
    ddInv (closeTrade st t) :=
  closeUpdate_ddInv t.netPnlInr h

theorem foldCloseLongs_ddInv (cond : PosS → Bool) (mk : PosS → TradeS)
    (upd : PosS → PosS) :
    ∀ (l : List PosS) (acc : StateS), ddInv acc →
      ddInv (foldCloseLongs cond mk upd l acc) := by
  intro l
  induction l with
  | nil => intro acc h; exact h
  | cons p l ih =>
    intro acc h
    have hstep : foldCloseLongs cond mk upd (p :: l) acc
        = foldCloseLongs cond mk upd l
          (if cond p then closeTrade acc (mk p)
           else { acc with openLongPositions := acc.openLongPositions ++ [upd p] }) := rfl
    rw [hstep]
    refine ih _ ?_
    split
    · exact closeTrade_ddInv _ h
    · exact h

theorem foldCloseShorts_ddInv (cond : PosS → Bool) (mk : PosS → TradeS)
    (upd : PosS → PosS) :
    ∀ (l : List PosS) (acc : StateS), ddInv acc →
      ddInv (foldCloseShorts cond mk upd l acc) := by
  intro l
  induction l with
  | nil => intro acc h; exact h
  | cons p l ih =>
    intro acc h
    have hstep : foldCloseShorts cond mk upd (p :: l) acc
        = foldCloseShorts cond mk upd l
          (if cond p then closeTrade acc (mk p)
           else { acc with openShortPositions := acc.openShortPositions ++ [upd p] }) := rfl
    rw [hstep]
    refine ih _ ?_
    split
    · exact closeTrade_ddInv _ h
    · exact h

theorem silverPreEntry_ddInv (c : CandleS) {st : StateS} (h : ddInv st) :
    ddInv (silverPreEntry c st) := by
  unfold silverPreEntry concMaePhase manageShorts manageLongs ninetyDayShorts ninetyDayLongs
  refine foldCloseShorts_ddInv _ _ _ _ _ ?_
  refine foldCloseLongs_ddInv _ _ _ _ _ ?_
  refine foldCloseShorts_ddInv _ _ _ _ _ ?_
  refine foldCloseLongs_ddInv _ _ _ _ _ ?_
  exact h

theorem sameCandleChecks_ddInv {st : StateS} (c : CandleS)
    (np : Option (PosS × PosS)) (h : ddInv st) :
    ddInv (sameCandleChecks c st np) := by
  unfold sameCandleChecks
  cases np with
  | none => exact h
  | some pr =>
    obtain ⟨lp, sp⟩ := pr
    dsimp only
    by_cases hlp : lp.tpPrice ≤ c.high
    · rw [if_pos hlp]
      split
      · exact closeTrade_ddInv _ (closeTrade_ddInv _ h)
      · exact closeTrade_ddInv _ h
    · rw [if_neg hlp]
      split
      · exact closeTrade_ddInv _ h
      · exact h

theorem dayUpdate_ddInv (c : CandleS) {st : StateS} (h : ddInv st) :
    ddInv (dayUpdate c st) := by
  unfold dayUpdate
  split
  · exact h
  · exact h

theorem silverStep_ddInv {st : StateS} (c : CandleS) (h : ddInv st) :
    ddInv (silverStep st c) := by
  unfold silverStep
  dsimp only
  have h0 : ddInv (dayUpdate c st) := dayUpdate_ddInv c h
  cases hd : (dayUpdate c st).dailyOpenPrice with
  | none => exact h0
  | some dOpen =>
    dsimp only
    have h5 : ddInv (silverPreEntry c (dayUpdate c st)) := silverPreEntry_ddInv c h0
    rcases entryOpen_spec c dOpen (silverPreEntry c (dayUpdate c st)) with
      ⟨heq, -⟩ | ⟨-, heq⟩
    · rw [heq]
      exact h5
    · rw [heq]
      exact sameCandleChecks_ddInv c _ h5

theorem foldl_preserve {P : StateS → Prop} (f : StateS → CandleS → StateS)
    (hstep : ∀ s c, P s → P (f s c)) :
    ∀ (l : List CandleS) (b : StateS), P b → P (List.foldl f b l) := by
  intro l
  induction l with
  | nil => intro b hb; exact hb
  | cons a l ih =>
    intro b hb
    rw [List.foldl_cons]
    exact ih (f b a) (hstep b a hb)

theorem endOfData_ddInv (df : List CandleS) {st : StateS} (h : ddInv st) :
    ddInv (endOfData df st) := by
  unfold endOfData
  cases df.getLast? with
  | none => exact h
  | some last => exact h

/-- C6 (amended): over any run of run_backtest the tracked maximum
drawdown is nonnegative, and it is at most 1 provided running equity never
became negative after an equity update; when equity does go negative the
recorded drawdown (peak - equity) / peak exceeds 1. -/
theorem claimC6_drawdown_amended (df : List CandleS) :
    0 ≤ (runBacktestSilver df).maxDrawdown ∧
    (0 ≤ (runBacktestSilver df).minEquity →
      (runBacktestSilver df).maxDrawdown ≤ 1) := by
  have hinit : ddInv initStateS := ⟨le_refl 0, fun _ => zero_le_one⟩
  exact endOfData_ddInv df
    (@foldl_preserve ddInv silverStep (fun s c hs => silverStep_ddInv c hs)
      df initStateS hinit)

theorem claimC6_witness :
    0 ≤ (runBacktestSilver witSilverDf).maxDrawdown ∧
    (runBacktestSilver witSilverDf).maxDrawdown ≤ 1 :=
  ⟨(claimC6_drawdown_amended witSilverDf).1,
   (claimC6_drawdown_amended witSilverDf).2 (by with_unfolding_all decide)⟩

/-- C6 counterexample: on cexC6df the long opened on the first candle
survives the 90-day rule (its floating loss is far below -5000 after 10001
days of swap) and then hits its take profit, realising a net loss that
drives equity to -93297.45; the drawdown recorded at that close is greater
than 1, so max drawdown does not lie in [0, 1]. -/
theorem claimC6_counterexample :
    1 < (runBacktestSilver cexC6df).maxDrawdown := by
  with_unfolding_all decide

end XauUsd
